import Mathlib

/-!
Verification of the price-cache-service trading core.

Shallow embedding of the JavaScript sources:
* JS numbers are modelled as rationals (`Rat`); epoch-millisecond clocks as `Int`.
* JS strings in the symbol-normalization module are modelled as lists of
  UTF-16 code units (`List Nat`); elsewhere plain `String` suffices because
  only equality is used.
* `undefined`-able numeric fields are `Option Rat`; the JS `||` fallback
  (which also replaces `0`) and the `??` fallback (which does not) are
  modelled by separate helpers.
* Asynchronous code (the per-account fill lock and the execution-latency
  timer) is modelled by running the post-latency body inline at tick time;
  `Date.now()` inside a handler is the `now` parameter.
* Database reads that mirror in-memory state (`supabase.from("accounts")…`)
  are answered from the in-memory account list; database writes that are
  read back later (account status / peak updates) update that same list.
-/

namespace PCS

/-! ## JS value helpers -/

/-- JS `a || d` for an optional number `a`: `undefined`, missing and `0`
all fall through to the default. -/
def jsOr (a : Option Rat) (d : Rat) : Rat :=
  match a with
  | some x => if x = 0 then d else x
  | none => d

/-- JS truthiness of an optional number: present and nonzero. -/
def truthy (a : Option Rat) : Bool :=
  match a with
  | some x => x ≠ 0
  | none => false

/-- JS `x >= y` where either side may be `undefined` (then `false`). -/
def jsGe (a b : Option Rat) : Bool :=
  match a, b with
  | some x, some y => x ≥ y
  | _, _ => false

/-- `Math.abs` (kernel-computable form of `|·|`). -/
def jsAbs (x : Rat) : Rat := if x < 0 then -x else x

/-- `Math.min` (kernel-computable form of `min`). -/
def jsMin (a b : Rat) : Rat := if a ≤ b then a else b

/-- `Math.max` (kernel-computable form of `max`). -/
def jsMax (a b : Rat) : Rat := if a ≤ b then b else a

/-- `Math.max` on integers. -/
def jsMaxI (a b : Int) : Int := if a ≤ b then b else a

theorem jsAbs_eq_abs (x : Rat) : jsAbs x = |x| := by
  unfold jsAbs
  rcases lt_or_le x 0 with h | h
  · rw [if_pos h, abs_of_neg h]
  · rw [if_neg (not_lt.2 h), abs_of_nonneg h]

theorem jsMin_eq_min (a b : Rat) : jsMin a b = min a b := (min_def a b).symm

theorem jsMax_eq_max (a b : Rat) : jsMax a b = max a b := (max_def a b).symm

theorem jsMaxI_eq_max (a b : Int) : jsMaxI a b = max a b := (max_def a b).symm

/-! ## symbolMap.js (src/symbolMap.js) — symbol normalization

JS strings are sequences of UTF-16 code units; we model them as lists of
code-unit values. -/

/-- A JavaScript string as its list of UTF-16 code units. -/
abbrev JStr := List Nat

/-- Code-unit list of a Lean string literal (all table entries are ASCII). -/
def js (s : String) : JStr := s.data.map Char.toNat

/-- `String.prototype.toUpperCase` on one ASCII code unit. -/
def jsCharUpper (c : Nat) : Nat := if 97 ≤ c ∧ c ≤ 122 then c - 32 else c

/-- `symbol.toUpperCase()`. -/
def jsToUpperCase (s : JStr) : JStr := s.map jsCharUpper

/-- `upper.replace(/[:_]/g, "")` — drop `:` (58) and `_` (95). -/
def stripColonUnderscore (s : JStr) : JStr := s.filter (fun c => c ≠ 58 ∧ c ≠ 95)

/-- Property lookup on an object literal used as a map. -/
def lookupAList (k : JStr) : List (JStr × JStr) → Option JStr
  | [] => none
  | (a, b) :: rest => if k = a then some b else lookupAList k rest

/-- The `FEED_SYMBOL_MAP` alias table of src/symbolMap.js. -/
def FEED_SYMBOL_MAP : List (JStr × JStr) :=
  [ (js "NSE:NIFTY", js "NIFTY"),
    (js "NSENIFTY", js "NIFTY"),
    (js "NSE:BANKNIFTY", js "BANKNIFTY"),
    (js "NSEBANKNIFTY", js "BANKNIFTY"),
    (js "FX:USDINR", js "USDINR"),
    (js "FXUSDINR", js "USDINR"),
    (js "FX:EURUSD", js "EURUSD"),
    (js "FXEURUSD", js "EURUSD"),
    (js "BINANCE:BTCUSDT", js "BINANCE:BTCUSDT"),
    (js "BINANCEBTCUSDT", js "BINANCE:BTCUSDT"),
    (js "NIFTY", js "NIFTY"),
    (js "BANKNIFTY", js "BANKNIFTY"),
    (js "USDINR", js "USDINR"),
    (js "EURUSD", js "EURUSD"),
    (js "BTCUSD", js "BINANCE:BTCUSDT"),
    (js "BTC", js "BINANCE:BTCUSDT"),
    (js "XAUUSD", js "GOLD") ]

/-- `normalizeSymbol` of src/symbolMap.js: falsy input returns the empty
string; otherwise uppercase, look up the alias table, retry with `:`/`_`
stripped, else return the uppercased input. -/
def normalizeSymbol (symbol : JStr) : JStr :=
  if symbol = [] then []
  else
    match lookupAList (jsToUpperCase symbol) FEED_SYMBOL_MAP with
    | some v => v
    | none =>
      match lookupAList (stripColonUnderscore (jsToUpperCase symbol)) FEED_SYMBOL_MAP with
      | some v => v
      | none => jsToUpperCase symbol

theorem jsCharUpper_idem (c : Nat) : jsCharUpper (jsCharUpper c) = jsCharUpper c := by
  by_cases h : 97 ≤ c ∧ c ≤ 122
  · simp only [jsCharUpper, if_pos h]
    rw [if_neg (by omega)]
  · simp only [jsCharUpper, if_neg h]

theorem jsToUpperCase_idem (s : JStr) : jsToUpperCase (jsToUpperCase s) = jsToUpperCase s := by
  unfold jsToUpperCase
  rw [List.map_map]
  apply List.map_congr_left
  intro c _
  exact jsCharUpper_idem c

theorem lookupAList_mem {k v : JStr} {l : List (JStr × JStr)}
    (h : lookupAList k l = some v) : v ∈ l.map Prod.snd := by
  induction l with
  | nil => simp [lookupAList] at h
  | cons p rest ih =>
    obtain ⟨a, b⟩ := p
    rw [lookupAList] at h
    by_cases hk : k = a
    · rw [if_pos hk] at h
      simp only [List.map_cons, List.mem_cons]
      exact Or.inl (Option.some.inj h).symm
    · rw [if_neg hk] at h
      simp only [List.map_cons, List.mem_cons]
      exact Or.inr (ih h)

theorem normalizeSymbol_shape (s : JStr) :
    normalizeSymbol s ∈ FEED_SYMBOL_MAP.map Prod.snd ∨ normalizeSymbol s = [] ∨
      (normalizeSymbol s = jsToUpperCase s ∧
        lookupAList (jsToUpperCase s) FEED_SYMBOL_MAP = none ∧
        lookupAList (stripColonUnderscore (jsToUpperCase s)) FEED_SYMBOL_MAP = none) := by
  unfold normalizeSymbol
  by_cases hs : s = []
  · rw [if_pos hs]
    right; left; rfl
  · rw [if_neg hs]
    cases h1 : lookupAList (jsToUpperCase s) FEED_SYMBOL_MAP with
    | some v => left; exact lookupAList_mem h1
    | none =>
      cases h2 : lookupAList (stripColonUnderscore (jsToUpperCase s)) FEED_SYMBOL_MAP with
      | some v => left; exact lookupAList_mem h2
      | none => right; right; exact ⟨rfl, rfl, rfl⟩

theorem normalizeSymbol_fixed_of_table {v : JStr}
    (h : v ∈ FEED_SYMBOL_MAP.map Prod.snd) : normalizeSymbol v = v := by
  simp only [FEED_SYMBOL_MAP, List.map_cons, List.map_nil, List.mem_cons,
    List.not_mem_nil, or_false] at h
  rcases h with rfl | rfl | rfl | rfl | rfl | rfl | rfl | rfl | rfl | rfl | rfl | rfl |
    rfl | rfl | rfl | rfl | rfl <;> decide

/-- C9: `normalizeSymbol` is idempotent — every alias-table value is itself
normalized to itself, and an unmapped input is returned uppercased, which is
again a fixed point. -/
theorem normalizeSymbol_idem (s : JStr) :
    normalizeSymbol (normalizeSymbol s) = normalizeSymbol s := by
  rcases normalizeSymbol_shape s with h | h | ⟨he, h1, h2⟩
  · exact normalizeSymbol_fixed_of_table h
  · rw [h]; decide
  · rw [he]
    by_cases hu : jsToUpperCase s = []
    · rw [hu]; decide
    · unfold normalizeSymbol
      rw [if_neg hu]
      simp only [jsToUpperCase_idem, h1, h2]

/-! ## backend/matching-engine/orderBook.js — depth-based execution -/

/-- One fill produced by `matchOrder` (`{ price, qty: take }`). -/
structure BookFill where
  price : Rat
  qty : Rat
deriving Repr, DecidableEq

/-- A stored depth book: `updateOrderBook` sorts `bids` high → low and
`asks` low → high before storing. -/
structure OrderBook where
  bids : List (Rat × Rat)
  asks : List (Rat × Rat)
deriving Repr, DecidableEq

/-- The argument of `matchOrder` (only the fields it reads). -/
structure BookOrder where
  symbol : String
  side : String
  quantity : Rat
deriving Repr, DecidableEq

/-- The level-consuming loop of `matchOrder`: walk the levels in list
order, at each level take `min remaining qty`, stop once `remaining ≤ 0`. -/
def matchLoop (remaining : Rat) : List (Rat × Rat) → List BookFill × Rat
  | [] => ([], remaining)
  | (price, qty) :: rest =>
    if remaining ≤ 0 then ([], remaining)
    else
      ((⟨price, min remaining qty⟩ : BookFill) ::
          (matchLoop (remaining - min remaining qty) rest).1,
        (matchLoop (remaining - min remaining qty) rest).2)

/-- `matchOrder(order)` of orderBook.js: no book for the symbol means no
fills; buys walk the asks, sells walk the bids, any other side leaves the
initial `{ fills: [], remaining: order.quantity }`. -/
def matchOrder (books : List (String × OrderBook)) (order : BookOrder) :
    List BookFill × Rat :=
  match books.find? (fun b => b.1 = order.symbol) with
  | none => ([], order.quantity)
  | some b =>
    if order.side = "buy" then matchLoop order.quantity b.2.asks
    else if order.side = "sell" then matchLoop order.quantity b.2.bids
    else ([], order.quantity)

theorem matchLoop_conserves (r : Rat) (levels : List (Rat × Rat)) :
    ((matchLoop r levels).1.map BookFill.qty).sum + (matchLoop r levels).2 = r := by
  induction levels generalizing r with
  | nil => simp [matchLoop]
  | cons l rest ih =>
    obtain ⟨p, q⟩ := l
    rw [matchLoop]
    by_cases h : r ≤ 0
    · simp [h]
    · rw [if_neg h]
      simp only [List.map_cons, List.sum_cons]
      have := ih (r - min r q)
      linarith

theorem matchLoop_nonneg (r : Rat) (levels : List (Rat × Rat)) (hr : 0 ≤ r) :
    0 ≤ (matchLoop r levels).2 := by
  induction levels generalizing r with
  | nil => simpa [matchLoop] using hr
  | cons l rest ih =>
    obtain ⟨p, q⟩ := l
    rw [matchLoop]
    by_cases h : r ≤ 0
    · simpa [h] using hr
    · rw [if_neg h]
      exact ih (r - min r q) (by simp [min_le_left r q])

theorem matchLoop_fills_levels (r : Rat) (levels : List (Rat × Rat)) :
    List.Forall₂ (fun (f : BookFill) (l : Rat × Rat) => f.price = l.1 ∧ f.qty ≤ l.2)
      (matchLoop r levels).1 (levels.take (matchLoop r levels).1.length) := by
  induction levels generalizing r with
  | nil => simp [matchLoop]
  | cons l rest ih =>
    obtain ⟨p, q⟩ := l
    rw [matchLoop]
    by_cases h : r ≤ 0
    · simp [h]
    · rw [if_neg h]
      simp only [List.length_cons, List.take_succ_cons]
      exact List.Forall₂.cons ⟨rfl, min_le_right r q⟩ (ih (r - min r q))

theorem matchLoop_prices_front (r : Rat) (levels : List (Rat × Rat)) :
    (matchLoop r levels).1.map BookFill.price =
      (levels.map Prod.fst).take (matchLoop r levels).1.length := by
  induction levels generalizing r with
  | nil => simp [matchLoop]
  | cons l rest ih =>
    obtain ⟨p, q⟩ := l
    rw [matchLoop]
    by_cases h : r ≤ 0
    · simp [h]
    · rw [if_neg h]
      simp only [List.map_cons, List.length_cons, List.take_succ_cons]
      rw [ih (r - min r q)]

/-- C10: `matchOrder` conserves quantity (fill quantities plus remaining sum
to `order.quantity`), never leaves a negative remaining, fills each book
level with at most the quantity available there at that level's price, and
walks asks (buys) respectively bids (sells) in stored list order, which
`updateOrderBook` keeps ascending respectively descending by price. -/
theorem matchOrder_spec (books : List (String × OrderBook)) (order : BookOrder)
    (hq : 0 ≤ order.quantity)
    (hsort : ∀ b ∈ books, ((b.2.asks.map Prod.fst).Sorted (· ≤ ·)) ∧
      ((b.2.bids.map Prod.fst).Sorted (· ≥ ·))) :
    (((matchOrder books order).1.map BookFill.qty).sum + (matchOrder books order).2
        = order.quantity) ∧
    (0 ≤ (matchOrder books order).2) ∧
    (∀ b, books.find? (fun x => x.1 = order.symbol) = some b →
      List.Forall₂ (fun (f : BookFill) (l : Rat × Rat) => f.price = l.1 ∧ f.qty ≤ l.2)
        (matchOrder books order).1
        ((if order.side = "buy" then b.2.asks else b.2.bids).take
          (matchOrder books order).1.length)) ∧
    (order.side = "buy" → ((matchOrder books order).1.map BookFill.price).Sorted (· ≤ ·)) ∧
    (order.side = "sell" → ((matchOrder books order).1.map BookFill.price).Sorted (· ≥ ·)) := by
  cases hf : books.find? (fun b => b.1 = order.symbol) with
  | none =>
    have heq : matchOrder books order = ([], order.quantity) := by
      unfold matchOrder
      rw [hf]
    rw [heq]
    refine ⟨by simp, hq, ?_, by simp, by simp⟩
    intro b' hb'
    exact absurd hb' (by simp)
  | some b =>
    have hb : b ∈ books := List.mem_of_find?_eq_some hf
    have hsorted := hsort b hb
    have heq : matchOrder books order =
        (if order.side = "buy" then matchLoop order.quantity b.2.asks
          else if order.side = "sell" then matchLoop order.quantity b.2.bids
          else ([], order.quantity)) := by
      unfold matchOrder
      rw [hf]
    by_cases hbuy : order.side = "buy"
    · rw [if_pos hbuy] at heq
      rw [heq]
      refine ⟨matchLoop_conserves _ _, matchLoop_nonneg _ _ hq, ?_, ?_, ?_⟩
      · intro b' hb'
        injection hb' with hb2
        subst hb2
        rw [if_pos hbuy]
        exact matchLoop_fills_levels _ _
      · intro _
        rw [matchLoop_prices_front]
        exact hsorted.1.sublist (List.take_sublist _ _)
      · intro hsell
        rw [hbuy] at hsell
        exact absurd hsell (by decide)
    · rw [if_neg hbuy] at heq
      by_cases hsell : order.side = "sell"
      · rw [if_pos hsell] at heq
        rw [heq]
        refine ⟨matchLoop_conserves _ _, matchLoop_nonneg _ _ hq, ?_, ?_, ?_⟩
        · intro b' hb'
          injection hb' with hb2
          subst hb2
          rw [if_neg hbuy]
          exact matchLoop_fills_levels _ _
        · intro hbuy2
          exact absurd hbuy2 hbuy
        · intro _
          rw [matchLoop_prices_front]
          exact hsorted.2.sublist (List.take_sublist _ _)
      · rw [if_neg hsell] at heq
        rw [heq]
        refine ⟨by simp, hq, ?_, fun h => absurd h hbuy, fun h => absurd h hsell⟩
        intro b' hb'
        injection hb' with hb2
        subst hb2
        simp [hbuy]

/-- A concrete stored book (bids descending, asks ascending). -/
def demoBooks : List (String × OrderBook) :=
  [("BTCUSD", { bids := [(9, 1), (8, 2)], asks := [(10, 1), (11, 2)] })]

/-- A concrete buy order against `demoBooks`. -/
def demoBuyOrder : BookOrder := { symbol := "BTCUSD", side := "buy", quantity := 2 }

/-- Witness for C10: `matchOrder` on the concrete book conserves quantity
and leaves a non-negative remaining. -/
theorem matchOrder_spec_witness :
    (0 ≤ demoBuyOrder.quantity) ∧
      ((((matchOrder demoBooks demoBuyOrder).1.map BookFill.qty).sum +
          (matchOrder demoBooks demoBuyOrder).2 = demoBuyOrder.quantity) ∧
        0 ≤ (matchOrder demoBooks demoBuyOrder).2) :=
  ⟨by decide,
    (matchOrder_spec demoBooks demoBuyOrder (by decide) (by decide)).1,
    (matchOrder_spec demoBooks demoBuyOrder (by decide) (by decide)).2.1⟩

/-! ## throttledBroadcast — backend/price-server index.js (same code in
publisher.js-bundled server and src/index.js): a process-wide fixed-window
counter `TPS_BUCKET = { count, ts }`. -/

/-- The process-wide `TPS_BUCKET`. -/
structure TPSBucket where
  count : Nat
  ts : Int
deriving Repr, DecidableEq

def MAX_BROADCAST_TPS : Nat := 20

/-- One `throttledBroadcast(msg)` call at time `now`: if the bucket is more
than 1000 ms old, reset it to `{ ts: now, count: 0 }`; then either drop
(count full) or count and broadcast. Returns the new bucket and whether the
message was broadcast. -/
def throttledBroadcast (b : TPSBucket) (now : Int) : TPSBucket × Bool :=
  let b2 := if now - b.ts > 1000 then { count := 0, ts := now } else b
  if b2.count ≥ MAX_BROADCAST_TPS then (b2, false)
  else ({ b2 with count := b2.count + 1 }, true)

/-- Feed a sequence of message times through the throttle, counting how
many messages pass to `broadcast`. -/
def throttleRun (b : TPSBucket) : List Int → TPSBucket × Nat
  | [] => (b, 0)
  | t :: rest =>
    ((throttleRun (throttledBroadcast b t).1 rest).1,
      cond (throttledBroadcast b t).2 1 0 +
        (throttleRun (throttledBroadcast b t).1 rest).2)

/-- The 200-message burst used against C8: 20 messages at t = 600 ms and
180 at t = 1001 ms, all inside a single real-time second. -/
def burstTimes : List Int := List.replicate 20 600 ++ List.replicate 180 1001

set_option maxRecDepth 8000 in
/-- C8 counterexample: starting from the boot bucket `{count 0, ts 0}`, a
burst of 200 messages that all lie within one second (between t = 600 and
t = 1001) passes 40 messages to `broadcast`, not at most 20 — the fixed
window resets at t = 1001 and grants a fresh allowance. -/
theorem throttledBroadcast_burst_forty :
    burstTimes.length = 200 ∧
      (∀ t ∈ burstTimes, 600 ≤ t ∧ t ≤ 1001) ∧
      (throttleRun ⟨0, 0⟩ burstTimes).2 = 40 ∧
      ¬ (throttleRun ⟨0, 0⟩ burstTimes).2 ≤ MAX_BROADCAST_TPS := by
  refine ⟨by decide, ?_, by decide, by decide⟩
  intro t ht
  simp only [burstTimes, List.mem_append, List.eq_of_mem_replicate] at ht
  rcases ht with h | h
  · rw [List.eq_of_mem_replicate h]
    exact ⟨le_refl _, by norm_num⟩
  · rw [List.eq_of_mem_replicate h]
    exact ⟨by norm_num, le_refl _⟩

theorem throttleRun_no_reset_cases (b : TPSBucket) (times : List Int)
    (h : ∀ t ∈ times, t - b.ts ≤ 1000) :
    (throttleRun b times).2 + b.count ≤ MAX_BROADCAST_TPS ∨
      ((throttleRun b times).2 = 0 ∧ MAX_BROADCAST_TPS ≤ b.count) := by
  induction times generalizing b with
  | nil =>
    by_cases hc : MAX_BROADCAST_TPS ≤ b.count
    · exact Or.inr ⟨rfl, hc⟩
    · left
      simp only [throttleRun]
      omega
  | cons t rest ih =>
    have hC : ¬ (t - b.ts > 1000) := by
      have := h t (by simp)
      omega
    have hstep : throttledBroadcast b t =
        (if b.count ≥ MAX_BROADCAST_TPS then (b, false)
          else ({ b with count := b.count + 1 }, true)) := by
      simp only [throttledBroadcast]
      rw [if_neg hC]
    rw [throttleRun, hstep]
    have hrest : ∀ s ∈ rest, s - b.ts ≤ 1000 := fun s hs => h s (List.mem_cons_of_mem t hs)
    by_cases hc : b.count ≥ MAX_BROADCAST_TPS
    · rw [if_pos hc]
      dsimp only
      simp only [Bool.cond_false]
      rcases ih b hrest with hca | hcb
      · left
        omega
      · right
        omega
    · rw [if_neg hc]
      dsimp only
      simp only [Bool.cond_true]
      rcases ih { b with count := b.count + 1 } hrest with hca | hcb
      · left
        dsimp only at hca
        omega
      · left
        dsimp only at hcb
        omega

/-- C8 amended: the throttle is a fixed 1-second window counter, not a
sliding-window one: within a single window — every message at most 1000 ms
after the bucket timestamp, so no reset occurs — at most
`MAX_BROADCAST_TPS = 20` messages pass and the rest are dropped (never
queued: the pass count never exceeds 20 however long the burst). A burst
that spans a window reset can deliver up to 40 (20 per window), as the
counterexample shows. -/
theorem throttleRun_window_bound (b : TPSBucket) (times : List Int)
    (h : ∀ t ∈ times, t - b.ts ≤ 1000) :
    (throttleRun b times).2 ≤ MAX_BROADCAST_TPS := by
  rcases throttleRun_no_reset_cases b times h with hc | hc
  · omega
  · omega

/-- Witness for the amended C8 theorem: a one-window burst of 200 messages
at t = 500 from a fresh bucket passes at most 20. -/
theorem throttleRun_window_bound_witness :
    (∀ t ∈ List.replicate 200 (500 : Int), t - (0 : Int) ≤ 1000) ∧
      (throttleRun ⟨0, 0⟩ (List.replicate 200 (500 : Int))).2 ≤ MAX_BROADCAST_TPS :=
  ⟨fun t ht => by rw [List.eq_of_mem_replicate ht]; norm_num,
    throttleRun_window_bound ⟨0, 0⟩ (List.replicate 200 (500 : Int))
      (fun t ht => by rw [List.eq_of_mem_replicate ht]; norm_num)⟩

/-! ## The matching engine and its risk engine

src/index.js bundles backend/matching-engine/matchingEngine.js; its risk
calls go to backend/price-server/riskEngine.js (src/unnamed/part_009) and
its trade state to tradeState.js (src/unnamed/part_012). Symbols are plain
strings here (only equality is used); `normalizeSymbol` of the shared
symbol map enters as the `nrm` parameter of the environment. Fresh `uuidv4`
identifiers are modelled by a counter. -/

/-- More JS comparison helpers: `y != null && x ≤ y` and the strict/dual
forms used by the scans and lot checks. -/
def jsLeO (x : Rat) (y : Option Rat) : Bool :=
  match y with
  | some v => x ≤ v
  | none => false

def jsGeO (x : Rat) (y : Option Rat) : Bool :=
  match y with
  | some v => x ≥ v
  | none => false

/-- JS `x > y` where `y` may be `undefined` (then `false`). -/
def jsGtO (x : Rat) (y : Option Rat) : Bool :=
  match y with
  | some v => x > v
  | none => false

/-- Per-symbol contract metadata — the fields the engine reads.
`maxLotsEvaluation` stands for `maxLots.Evaluation`, the only lot cap the
risk engine consults (`size > maxLots.Evaluation` is false in JS when the
field is absent, which `jsGtO` reproduces). -/
structure Contract where
  tickValue : Option Rat := none
  spread : Option Rat := none
  commission : Option Rat := none
  maxSlippage : Option Rat := none
  maxLotsEvaluation : Option Rat := none
  tradingHours : Option (Rat × Rat) := none
  convertToINR : Bool := false
deriving Repr, DecidableEq

abbrev Contracts := String → Option Contract

/-- An account row (in-memory mirror = store row; the engine treats them
interchangeably, re-fetching on each risk check and persisting updates). -/
structure Account where
  id : String
  status : String
  current_balance : Rat
  start_balance : Rat
  peak_balance : Option Rat := none
  max_loss : Option Rat := none
  daily_loss_limit : Option Rat := none
  trail_drawdown : Option Rat := none
  trailing_dd_mode : Option String := none
  profit_target : Option Rat := none
  total_profit : Option Rat := none
  best_day_profit : Option Rat := none
  consistency_flag : Bool := false
  blown_reason : Option String := none
  upnl : Rat := 0
deriving Repr, DecidableEq

/-- An open (or closed) trade. -/
structure Trade where
  id : Nat
  account_id : String
  user_id : String := ""
  symbol : String
  side : String
  quantity : Rat
  entry_price : Rat
  stop_loss : Option Rat := none
  take_profit : Option Rat := none
  is_open : Bool := true
  status : String := "open"
  time_opened : Int
  pnl : Rat
  order_id : Option Nat := none
  exit_price : Option Rat := none
  exit_reason : Option String := none
  time_closed : Option Int := none
deriving Repr, DecidableEq

/-- An order; `otype` is the source field `type`. -/
structure Order where
  id : Nat
  account_id : String
  user_id : String := ""
  symbol : String
  side : String
  quantity : Rat
  otype : String
  limit_price : Option Rat := none
  stop_loss : Option Rat := none
  take_profit : Option Rat := none
deriving Repr, DecidableEq

/-- A `sessionPnL` entry. -/
structure Session where
  day : String
  realized : Rat
  bestDay : Rat
  total : Rat
deriving Repr, DecidableEq

/-- Events emitted on the WebSocket / Redis channels (the ones the claims
are about; snapshot and audit writes carry no additional state). -/
inductive Ev where
  | priceEv (symbol : String) (price : Rat)
  | upnlEv (accId : String) (upnl : Rat)
  | fillEv (trade : Trade)
  | pendingEv (order : Order)
  | rejectEv (order : Order) (reason : String)
  | closeEv (trade : Trade) (reason : Option String)
  | accountEv (accId : String)
deriving Repr, DecidableEq

/-- The shared in-memory state: `latestPrices`, `pendingOrders`, the
tradeState `openTrades` and `accounts`, `sessionPnL`, plus the fresh-id
counter standing for `uuidv4`. -/
structure EngineState where
  latestPrices : List (String × Rat × Int)
  pendingOrders : List Order
  openTrades : List Trade
  accounts : List Account
  sessions : List (String × Session)
  nextId : Nat
deriving Repr, DecidableEq

/-- Ambient inputs of a run: contract table, symbol normalization, today's
date string, the clock, the UTC hour, the per-fill random draws
(`Math.random() * 0.5 + 0.5`), and the store's answer to the daily-PnL
query of the risk engine. -/
structure Env where
  contracts : Contracts
  nrm : String → String
  today : String
  now : Int
  hourUTC : Rat
  rng : Nat → Rat
  dayPnl : String → Rat

def SLTP_GRACE_MS : Int := 1000
def EXECUTION_LATENCY_MS : Int := 150
def PRICE_STALE_MS : Int := 5000

/-- `latestPrices[sym]` (price, ts). -/
def lookupPrice (l : List (String × Rat × Int)) (sym : String) : Option (Rat × Int) :=
  (l.find? (fun e => e.1 = sym)).map Prod.snd

/-- `latestPrices[sym] = { price, ts }`. -/
def setPrice (l : List (String × Rat × Int)) (sym : String) (p : Rat) (ts : Int) :
    List (String × Rat × Int) :=
  (sym, p, ts) :: l.filter (fun e => e.1 ≠ sym)

/-- `accounts.find(a => a.id === id)` / the store fetch by id. -/
def findAccount (accounts : List Account) (accId : String) : Option Account :=
  accounts.find? (fun a => a.id = accId)

/-- Write back a mutated account object / persist the account patch. -/
def updAccount (accounts : List Account) (acc : Account) : List Account :=
  accounts.map (fun a => if a.id = acc.id then acc else a)

/-- `sessionPnL.get(id)`. -/
def findSession (sessions : List (String × Session)) (accId : String) : Option Session :=
  (sessions.find? (fun s => s.1 = accId)).map Prod.snd

/-- `sessionPnL.set(id, sess)`. -/
def setSession (sessions : List (String × Session)) (accId : String) (sess : Session) :
    List (String × Session) :=
  (accId, sess) :: sessions.filter (fun s => s.1 ≠ accId)

/-- `getContracts()[sym]?.tickValue ?? 1`. -/
def tickValueOf (ctr : Contracts) (sym : String) : Rat :=
  ((ctr sym).bind Contract.tickValue).getD 1

/-- `c?.spread || 0`. -/
def spreadOf (ctr : Contracts) (sym : String) : Rat :=
  jsOr ((ctr sym).bind Contract.spread) 0

/-- `c?.commission || 0`. -/
def commissionOf (ctr : Contracts) (sym : String) : Rat :=
  jsOr ((ctr sym).bind Contract.commission) 0

/-- A risk-check result `{ ok, error? }`. -/
structure RiskResult where
  ok : Bool
  error : Option String := none
deriving Repr, DecidableEq

/-- `applySlippage(entryPrice, tickPrice, side, liquidityGap = 0)` of the
price-server risk engine: base slippage 0.01 % of the entry price, plus a
quarter of the liquidity gap when positive; added to the tick price for
buys, subtracted for sells. -/
def applySlippage (entryPrice tickPrice : Rat) (side : String)
    (liquidityGap : Rat := 0) : Rat :=
  let slippage := entryPrice * (1 / 10000) +
    (if liquidityGap > 0 then liquidityGap * (1 / 4) else 0)
  if side = "buy" then tickPrice + slippage else tickPrice - slippage

/-- `preTradeRiskCheck(accountId, symbol, size)` of the price-server risk
engine: fresh account fetch, inactive-status gate, Evaluation lot cap,
trading-hours gate against the current UTC hour. -/
def preTradeRiskCheck (accounts : List Account) (ctr : Contracts) (hourUTC : Rat)
    (accountId : String) (symbol : String) (size : Rat) : RiskResult :=
  match findAccount accounts accountId with
  | none => ⟨false, some "ACCOUNT_NOT_FOUND"⟩
  | some account =>
    if account.status = "blown" ∨ account.status = "suspended" then
      ⟨false, some "ACCOUNT_INACTIVE"⟩
    else if jsGtO size ((ctr symbol).bind Contract.maxLotsEvaluation) then
      ⟨false, some "MAX_LOT_SIZE"⟩
    else
      match (ctr symbol).bind Contract.tradingHours with
      | some hrs =>
        if hourUTC < hrs.1 ∨ hourUTC ≥ hrs.2 then ⟨false, some "MARKET_CLOSED"⟩
        else ⟨true, none⟩
      | none => ⟨true, none⟩

/-- `evaluateImmediateRisk(accountId, symbol, size, execPrice)` of the
price-server risk engine: fresh account fetch, inactive-status gate,
Evaluation lot cap, static max loss, trailing drawdown against the current
balance. (`execPrice` is accepted but not read by the source body.) -/
def evaluateImmediateRisk (accounts : List Account) (ctr : Contracts)
    (accountId : String) (symbol : String) (size : Rat) (_execPrice : Rat) : RiskResult :=
  match findAccount accounts accountId with
  | none => ⟨false, some "ACCOUNT_NOT_FOUND"⟩
  | some account =>
    if account.status = "blown" ∨ account.status = "suspended" then
      ⟨false, some "ACCOUNT_INACTIVE"⟩
    else if jsGtO size ((ctr symbol).bind Contract.maxLotsEvaluation) then
      ⟨false, some "MAX_LOT_SIZE"⟩
    else if truthy account.max_loss ∧
        account.current_balance ≤ account.start_balance - account.max_loss.getD 0 then
      ⟨false, some "MAX_LOSS"⟩
    else if truthy account.trail_drawdown ∧
        account.current_balance ≤
          jsMax (account.start_balance - account.trail_drawdown.getD 0)
            (jsOr account.peak_balance account.start_balance -
              account.trail_drawdown.getD 0) then
      ⟨false, some "TRAILING_DRAWDOWN"⟩
    else ⟨true, none⟩

/-- `closeTrade(trade, closePrice, reason)` of the bundled matching engine:
price PnL by side times `tickValue`, net PnL folds in the running
`trade.pnl` (the entry commission debit), the trade is removed and the
owning account credited, and the per-day session accumulators are updated,
resetting first when the stored day differs from today. -/
def closeTrade (env : Env) (trade : Trade) (closePrice : Rat) (reason : Option String)
    (st : EngineState) : EngineState × List Ev :=
  let tickValue := tickValueOf env.contracts trade.symbol
  let pnl := if trade.side = "buy"
    then (closePrice - trade.entry_price) * trade.quantity * tickValue
    else (trade.entry_price - closePrice) * trade.quantity * tickValue
  let netPnL := pnl + trade.pnl
  let closed : Trade := { trade with
    is_open := false
    status := "closed"
    exit_price := some closePrice
    pnl := netPnL
    exit_reason := match reason with | some r => some r | none => trade.exit_reason
    time_closed := some env.now }
  let newOpen := st.openTrades.filter (fun t => t.id ≠ trade.id)
  match findAccount st.accounts trade.account_id with
  | none => ({ st with openTrades := newOpen }, [Ev.closeEv closed reason])
  | some acc =>
    let acc1 := { acc with current_balance := acc.current_balance + netPnL }
    let sess0 : Session := match findSession st.sessions acc1.id with
      | some s => if s.day ≠ env.today then ⟨env.today, 0, 0, 0⟩ else s
      | none => ⟨env.today, 0, 0, 0⟩
    let realized := sess0.realized + netPnL
    let sess : Session :=
      { day := sess0.day
        realized := realized
        bestDay := if realized > sess0.bestDay then realized else sess0.bestDay
        total := sess0.total + netPnL }
    ({ st with
        openTrades := newOpen
        accounts := updAccount st.accounts acc1
        sessions := setSession st.sessions acc1.id sess },
      [Ev.closeEv closed reason, Ev.accountEv acc1.id])

/-- The slippage computed by `fillOrder`:
`gap = |basePrice − (prevPrice || basePrice)|`, then
`gap > 0 ? min(gap × 0.2, c?.maxSlippage || 5) : 0`. -/
def fillSlippage (ctr : Contracts) (symbol : String) (basePrice prevPrice : Rat) : Rat :=
  let gap := jsAbs (basePrice - (if prevPrice = 0 then basePrice else prevPrice))
  if gap > 0 then jsMin (gap * (1 / 5)) (jsOr ((ctr symbol).bind Contract.maxSlippage) 5)
  else 0

/-- `fillOrder(order, basePrice, prevPrice)` of the bundled matching
engine — the body that runs under the per-account lock after the
execution-latency sleep, modelled at tick time `env.now` with `r` the
uniform draw in [0.5, 1]. Spread and slippage are applied adversarially by
side, `evaluateImmediateRisk` gates the fill (rejecting leaves the state —
including the pending list — untouched), the trade opens with
`pnl = −commission × fillQty`, the filled pending row is removed and a
positive remainder is re-queued under a fresh id. -/
def fillOrder (env : Env) (r : Rat) (order : Order) (basePrice prevPrice : Rat)
    (st : EngineState) : EngineState × List Ev :=
  let spread := spreadOf env.contracts order.symbol
  let commission := commissionOf env.contracts order.symbol
  let slippage := fillSlippage env.contracts order.symbol basePrice prevPrice
  let execPrice := if order.side = "buy" then basePrice + spread + slippage
    else basePrice - spread - slippage
  let risk := evaluateImmediateRisk st.accounts env.contracts order.account_id
    order.symbol order.quantity execPrice
  if risk.ok = false then (st, [Ev.rejectEv order (risk.error.getD "")])
  else
    let fillQty : Rat := ((jsMaxI 1 (order.quantity * r).floor : Int) : Rat)
    let remainingQty := order.quantity - fillQty
    let trade : Trade :=
      { id := st.nextId
        account_id := order.account_id
        user_id := order.user_id
        symbol := order.symbol
        side := order.side
        quantity := fillQty
        entry_price := execPrice
        stop_loss := order.stop_loss
        take_profit := order.take_profit
        is_open := true
        status := "open"
        time_opened := env.now
        pnl := -commission * fillQty
        order_id := some order.id }
    let st1 : EngineState :=
      { st with
          pendingOrders := st.pendingOrders.filter (fun o => o.id ≠ order.id)
          openTrades := st.openTrades ++ [trade]
          nextId := st.nextId + 1 }
    if remainingQty > 0 then
      let rest : Order := { order with id := st1.nextId, quantity := remainingQty }
      ({ st1 with pendingOrders := st1.pendingOrders ++ [rest], nextId := st1.nextId + 1 },
        [Ev.fillEv trade, Ev.pendingEv rest])
    else (st1, [Ev.fillEv trade])

/-- The `toFill` predicate of `processTick`: same symbol and the tick at or
through the limit price by side. -/
def limitEligible (norm : String) (price : Rat) (o : Order) : Bool :=
  o.symbol = norm &&
    ((o.side = "buy" && jsLeO price o.limit_price) ||
      (o.side = "sell" && jsGeO price o.limit_price))

/-- The `toClose` predicate of `processTick`: same symbol, open at least
`SLTP_GRACE_MS`, and the tick at or through the SL or TP barrier. -/
def sltpEligible (norm : String) (price : Rat) (now : Int) (t : Trade) : Bool :=
  t.symbol = norm && !(now - t.time_opened < SLTP_GRACE_MS) &&
    (if t.side = "buy" then jsLeO price t.stop_loss || jsGeO price t.take_profit
      else jsGeO price t.stop_loss || jsLeO price t.take_profit)

/-- The `for (const order of toFill) await fillOrder(order, price, prev)`
loop, drawing `env.rng i` for the i-th fill. -/
def runFills (env : Env) (price prev : Rat) (i : Nat) :
    List Order → EngineState → EngineState × List Ev
  | [], st => (st, [])
  | o :: rest, st =>
    ((runFills env price prev (i + 1) rest (fillOrder env (env.rng i) o price prev st).1).1,
      (fillOrder env (env.rng i) o price prev st).2 ++
        (runFills env price prev (i + 1) rest (fillOrder env (env.rng i) o price prev st).1).2)

/-- The `for (const t of toClose) await closeTrade(t, price, "SLTP Trigger")`
loop of `processTick`: SL/TP closes at the tick price. -/
def runSltpCloses (env : Env) (price : Rat) :
    List Trade → EngineState → EngineState × List Ev
  | [], st => (st, [])
  | t :: rest, st =>
    ((runSltpCloses env price rest (closeTrade env t price (some "SLTP Trigger") st).1).1,
      (closeTrade env t price (some "SLTP Trigger") st).2 ++
        (runSltpCloses env price rest (closeTrade env t price (some "SLTP Trigger") st).1).2)

/-- The SL-then-TP decision of the risk-engine scan (symbol and grace are
checked by the caller): `"SL Hit"` wins over `"TP Hit"`. -/
def riskSltpReason (tickPrice : Rat) (pos : Trade) : Option String :=
  if (pos.side = "buy" && jsLeO tickPrice pos.stop_loss) ||
      (pos.side = "sell" && jsGeO tickPrice pos.stop_loss) then some "SL Hit"
  else if (pos.side = "buy" && jsGeO tickPrice pos.take_profit) ||
      (pos.side = "sell" && jsLeO tickPrice pos.take_profit) then some "TP Hit"
  else none

/-- The SL/TP scan of `evaluateOpenPositions` (price-server risk engine):
skip other symbols and trades inside the grace window, close the rest at
`applySlippage(entry_price, tickPrice, side)`. -/
def runRiskSltp (env : Env) (symbol : String) (tickPrice : Rat) :
    List Trade → EngineState → EngineState × List Ev
  | [], st => (st, [])
  | pos :: rest, st =>
    if pos.symbol ≠ symbol then runRiskSltp env symbol tickPrice rest st
    else if env.now - pos.time_opened < SLTP_GRACE_MS then
      runRiskSltp env symbol tickPrice rest st
    else
      match riskSltpReason tickPrice pos with
      | none => runRiskSltp env symbol tickPrice rest st
      | some reason =>
        ((runRiskSltp env symbol tickPrice rest
            (closeTrade env pos (applySlippage pos.entry_price tickPrice pos.side)
              (some reason) st).1).1,
          (closeTrade env pos (applySlippage pos.entry_price tickPrice pos.side)
              (some reason) st).2 ++
            (runRiskSltp env symbol tickPrice rest
              (closeTrade env pos (applySlippage pos.entry_price tickPrice pos.side)
                (some reason) st).1).2)

/-- The liquidation loop of `handleBreach`: close every open position of
the account at the slippage-adjusted exit price. -/
def runBreachCloses (env : Env) (tickPrice : Rat) (reason : String) :
    List Trade → EngineState → EngineState × List Ev
  | [], st => (st, [])
  | pos :: rest, st =>
    ((runBreachCloses env tickPrice reason rest
        (closeTrade env pos (applySlippage pos.entry_price tickPrice pos.side)
          (some reason) st).1).1,
      (closeTrade env pos (applySlippage pos.entry_price tickPrice pos.side)
          (some reason) st).2 ++
        (runBreachCloses env tickPrice reason rest
          (closeTrade env pos (applySlippage pos.entry_price tickPrice pos.side)
            (some reason) st).1).2)

/-- `handleBreach(account, tickPrice, reason)`: persist `status = "blown"`
with the breach reason, then liquidate the account's open positions. -/
def handleBreach (env : Env) (account : Account) (tickPrice : Rat) (reason : String)
    (st : EngineState) : EngineState × List Ev :=
  let blown := { account with status := "blown", blown_reason := some reason }
  let st1 := { st with accounts := updAccount st.accounts blown }
  runBreachCloses env tickPrice reason
    (st1.openTrades.filter (fun p => p.account_id = account.id)) st1

/-- The trailing-drawdown computation of the account loop, for a truthy
`trail_drawdown = td`: frozen accounts (`passed` or mode `FROZEN`) keep
their peak and floor `peak − td`; live accounts advance the peak to
`max(peak, current_balance)` and use
`max(start_balance − td, newPeak − td)`. Returns (peak, ddLevel). -/
def trailingCheck (acc : Account) (td : Rat) : Rat × Rat :=
  if acc.status = "passed" ∨ acc.trailing_dd_mode = some "FROZEN" then
    (jsOr acc.peak_balance acc.start_balance,
      jsOr acc.peak_balance acc.start_balance - td)
  else
    (jsMax (jsOr acc.peak_balance acc.start_balance) acc.current_balance,
      jsMax (acc.start_balance - td)
        (jsMax (jsOr acc.peak_balance acc.start_balance) acc.current_balance - td))

/-- The consistency-rule and profit-target tail of the account loop. -/
def consistencyAndTarget (_env : Env) (st : EngineState) (acc : Account) :
    EngineState × List Ev :=
  let bestDay := jsOr acc.best_day_profit 0
  let violated : Bool := match acc.profit_target with
    | some pt => pt > 0 ∧ bestDay > pt * (1 / 2)
    | none => false
  let acc2 :=
    if violated ∧ ¬acc.consistency_flag then { acc with consistency_flag := true }
    else if ¬violated ∧ acc.consistency_flag then { acc with consistency_flag := false }
    else acc
  let st2 := { st with accounts := updAccount st.accounts acc2 }
  if jsGe acc2.total_profit acc2.profit_target ∧
      ¬(acc2.status = "passed" ∨ acc2.status = "blown") then
    if acc2.consistency_flag then (st2, [])
    else
      let passedAcc := { acc2 with status := "passed", trailing_dd_mode := some "FROZEN" }
      ({ st2 with accounts := updAccount st2.accounts passedAcc }, [])
  else (st2, [])

/-- One iteration of the account loop of `evaluateOpenPositions`: skip
blown accounts; breach on static max loss, daily loss limit (the store's
answer to today's closed-PnL query is `env.dayPnl`), or trailing drawdown
(persisting an advanced peak first); otherwise run the consistency and
profit-target updates. -/
def evalAccountStep (env : Env) (tickPrice : Rat) (st : EngineState) (accId : String) :
    EngineState × List Ev :=
  match findAccount st.accounts accId with
  | none => (st, [])
  | some acc =>
    if acc.status = "blown" then (st, [])
    else if truthy acc.max_loss ∧
        acc.current_balance ≤ acc.start_balance - acc.max_loss.getD 0 then
      handleBreach env acc tickPrice "MAX_LOSS" st
    else if (truthy acc.daily_loss_limit ∧ acc.daily_loss_limit.getD 0 > 0) ∧
        env.dayPnl acc.id ≤ -(acc.daily_loss_limit.getD 0) then
      handleBreach env acc tickPrice "DAILY_LOSS_LIMIT" st
    else if truthy acc.trail_drawdown then
      let pr := trailingCheck acc (acc.trail_drawdown.getD 0)
      let frozen := acc.status = "passed" ∨ acc.trailing_dd_mode = some "FROZEN"
      let acc2 := if ¬frozen ∧ pr.1 ≠ jsOr acc.peak_balance acc.start_balance
        then { acc with peak_balance := some pr.1 } else acc
      let stT := { st with accounts := updAccount st.accounts acc2 }
      if acc2.current_balance ≤ pr.2 then
        handleBreach env acc2 tickPrice "TRAILING_DRAWDOWN" stT
      else consistencyAndTarget env stT acc2
    else consistencyAndTarget env st acc

/-- The `for (const acc of accounts)` loop over the account ids captured
at entry. -/
def runAccountChecks (env : Env) (tickPrice : Rat) :
    List String → EngineState → EngineState × List Ev
  | [], st => (st, [])
  | accId :: rest, st =>
    ((runAccountChecks env tickPrice rest (evalAccountStep env tickPrice st accId).1).1,
      (evalAccountStep env tickPrice st accId).2 ++
        (runAccountChecks env tickPrice rest (evalAccountStep env tickPrice st accId).1).2)

/-- `evaluateOpenPositions(symbol, tickPrice)` of the price-server risk
engine: bail out on unknown contract, run the slippage-exiting SL/TP scan
over the open positions, then the per-account rule checks. -/
def evaluateOpenPositions (env : Env) (symbol : String) (tickPrice : Rat)
    (st : EngineState) : EngineState × List Ev :=
  match env.contracts symbol with
  | none => (st, [])
  | some _ =>
    ((runAccountChecks env tickPrice (st.accounts.map Account.id)
        (runRiskSltp env symbol tickPrice st.openTrades st).1).1,
      (runRiskSltp env symbol tickPrice st.openTrades st).2 ++
        (runAccountChecks env tickPrice (st.accounts.map Account.id)
          (runRiskSltp env symbol tickPrice st.openTrades st).1).2)

/-- The per-trade unrealized PnL summed per account by `processTick`
(every open trade of the account, priced at this tick). -/
def upnlOf (ctr : Contracts) (price : Rat) (trades : List Trade) (accId : String) : Rat :=
  ((trades.filter (fun t => t.account_id = accId)).map (fun t =>
    if t.side = "buy" then (price - t.entry_price) * t.quantity * tickValueOf ctr t.symbol
    else (t.entry_price - price) * t.quantity * tickValueOf ctr t.symbol)).sum

/-- The unrealized-PnL refresh of `processTick`: store each account's
aggregate uPnL on the account object and emit `account_upnl`. -/
def upnlRefresh (env : Env) (price : Rat) (st : EngineState) : EngineState × List Ev :=
  let upd := fun (a : Account) =>
    { a with upnl := upnlOf env.contracts price st.openTrades a.id }
  ({ st with accounts := st.accounts.map upd },
    st.accounts.map (fun a => Ev.upnlEv a.id (upnlOf env.contracts price st.openTrades a.id)))

/-- `processTick(symbol, price)` of the bundled matching engine, in source
order: normalize, read the previous mark (`?? price`), update the mark,
refresh unrealized PnL, fill eligible pending limit orders, close
grace-elapsed SL/TP-crossed trades at the tick price, then hand off to
`evaluateOpenPositions`. Latency-delayed fill bodies run at `env.now`. -/
def processTick (env : Env) (symbol : String) (price : Rat) (st : EngineState) :
    EngineState × List Ev :=
  let norm := env.nrm symbol
  let prev := ((lookupPrice st.latestPrices norm).map Prod.fst).getD price
  let st0 := { st with latestPrices := setPrice st.latestPrices norm price env.now }
  let u := upnlRefresh env price st0
  let f := runFills env price prev 0 (u.1.pendingOrders.filter (limitEligible norm price)) u.1
  let c := runSltpCloses env price (f.1.openTrades.filter (sltpEligible norm price env.now)) f.1
  let e := evaluateOpenPositions env norm price c.1
  (e.1, Ev.priceEv norm price :: (u.2 ++ f.2 ++ c.2 ++ e.2))

/-- `!cached?.price` — no cached object or a falsy (zero) price. -/
def jsFalsyPrice (c : Option (Rat × Int)) : Bool :=
  match c with
  | some p => p.1 = 0
  | none => true

/-- `convertPrice(symbol, price)`: multiply by the USDINR quote (in-memory
first, KV fallback, default 83) when the contract is INR-converted. -/
def convertPrice (ctr : Contracts) (kvUsdInr : Option Rat) (st : EngineState)
    (symbol : String) (price : Rat) : Rat :=
  match ctr symbol with
  | some c =>
    if c.convertToINR then
      price * (match lookupPrice st.latestPrices "USDINR" with
        | some q => q.1
        | none => match kvUsdInr with | some x => x | none => 83)
    else price
  | none => price

/-- `placeOrder(order)` of the bundled matching engine. `isDup` models
membership of the order hash in the expiring `recentOrders` set,
`livePrice` the `fetchPriceNow` fallback and `kvUsdInr` the KV USDINR
quote. Market orders read the (fresh enough) mark, convert, run
`evaluateImmediateRisk` and fill; limit orders are queued as pending. -/
def placeOrder (env : Env) (isDup : Bool) (livePrice : Option Rat)
    (kvUsdInr : Option Rat) (order : Order) (st : EngineState) :
    EngineState × List Ev :=
  let order := { order with symbol := env.nrm order.symbol }
  if isDup then (st, [Ev.rejectEv order "DUPLICATE_ORDER"])
  else
    let riskCheck := preTradeRiskCheck st.accounts env.contracts env.hourUTC
      order.account_id order.symbol order.quantity
    if riskCheck.ok = false then (st, [Ev.rejectEv order (riskCheck.error.getD "")])
    else if order.otype = "market" then
      let cached0 := lookupPrice st.latestPrices order.symbol
      let cached := if jsFalsyPrice cached0 ||
          (match cached0 with | some c => env.now - c.2 > PRICE_STALE_MS | none => true) then
        match livePrice with
        | some live => some (live, env.now)
        | none => cached0
      else cached0
      if jsFalsyPrice cached then (st, [Ev.rejectEv order "NO_LIVE_PRICE"])
      else
        let basePrice := (cached.map Prod.fst).getD 0
        let execPrice := convertPrice env.contracts kvUsdInr st order.symbol basePrice
        let orderId := st.nextId
        let st1 := { st with nextId := st.nextId + 1 }
        let postRisk := evaluateImmediateRisk st1.accounts env.contracts
          order.account_id order.symbol order.quantity execPrice
        if postRisk.ok = false then (st1, [Ev.rejectEv order (postRisk.error.getD "")])
        else fillOrder env (env.rng 0) { order with id := orderId } execPrice basePrice st1
    else
      let newOrder := { order with id := st.nextId }
      ({ st with pendingOrders := st.pendingOrders ++ [newOrder], nextId := st.nextId + 1 },
        [Ev.pendingEv newOrder])

/-! ## Basic state lemmas -/

theorem findAccount_id {accounts : List Account} {accId : String} {acc : Account}
    (h : findAccount accounts accId = some acc) : acc.id = accId := by
  unfold findAccount at h
  have h2 := List.find?_some h
  simpa using h2

theorem find?_map_id_preserving (l : List Account) (f : Account → Account)
    (hf : ∀ a, (f a).id = a.id) (accId : String) :
    findAccount (l.map f) accId = (findAccount l accId).map f := by
  unfold findAccount
  induction l with
  | nil => rfl
  | cons a rest ih =>
    rw [List.map_cons]
    by_cases ha : a.id = accId
    · rw [List.find?_cons_of_pos _ (by simp [hf, ha]),
        List.find?_cons_of_pos _ (by simp [ha])]
      rfl
    · rw [List.find?_cons_of_neg _ (by simp [hf, ha]),
        List.find?_cons_of_neg _ (by simp [ha])]
      exact ih

theorem findAccount_updAccount (accounts : List Account) (acc2 : Account) (i : String) :
    findAccount (updAccount accounts acc2) i =
      (findAccount accounts i).map (fun a => if a.id = acc2.id then acc2 else a) := by
  unfold updAccount
  exact find?_map_id_preserving accounts _
    (fun a => by by_cases h : a.id = acc2.id <;> simp [h]) i

theorem findAccount_updAccount_self {accounts : List Account} {accId : String}
    {acc acc2 : Account} (h : findAccount accounts accId = some acc)
    (hid : acc2.id = acc.id) :
    findAccount (updAccount accounts acc2) accId = some acc2 := by
  rw [findAccount_updAccount, h]
  simp only [Option.map_some']
  rw [if_pos hid.symm]

theorem findSession_setSession (sessions : List (String × Session)) (accId : String)
    (sess : Session) : findSession (setSession sessions accId sess) accId = some sess := by
  unfold findSession setSession
  rw [List.find?_cons_of_pos _ (by simp)]
  rfl

theorem if_gt_eq_max (b r : Rat) : (if r > b then r else b) = max b r := by
  rcases le_or_lt r b with h | h
  · rw [if_neg (not_lt.2 h), max_eq_left h]
  · rw [if_pos h, max_eq_right h.le]

/-- C1: `closeTrade(trade, closePrice, reason)` computes
`pnl_delta = (closePrice − entry_price) × quantity × tickValue` for buys
and its negation for sells, sets the final pnl of the closed trade to
`net_pnl = pnl_delta + trade.pnl` (the entry commission already folded into
`trade.pnl` is included, no closing commission is added), credits the
owning account's `current_balance` by exactly `net_pnl`, and updates the
session accumulators `realized += net_pnl`, `total += net_pnl`,
`bestDay = max(bestDay, realized)`, after resetting the counters when the
stored session day differs from today (or no session is stored). -/
theorem closeTrade_spec (env : Env) (trade : Trade) (closePrice : Rat)
    (reason : Option String) (st : EngineState) (acc : Account)
    (hacc : findAccount st.accounts trade.account_id = some acc) :
    ∃ net : Rat,
      net = (if trade.side = "buy"
          then (closePrice - trade.entry_price) * trade.quantity *
            tickValueOf env.contracts trade.symbol
          else -((closePrice - trade.entry_price) * trade.quantity *
            tickValueOf env.contracts trade.symbol)) + trade.pnl ∧
      findAccount (closeTrade env trade closePrice reason st).1.accounts trade.account_id =
        some { acc with current_balance := acc.current_balance + net } ∧
      (let sess0 : Session := match findSession st.sessions trade.account_id with
        | some s => if s.day ≠ env.today then ⟨env.today, 0, 0, 0⟩ else s
        | none => ⟨env.today, 0, 0, 0⟩
       findSession (closeTrade env trade closePrice reason st).1.sessions trade.account_id =
        some { day := sess0.day, realized := sess0.realized + net,
               bestDay := max sess0.bestDay (sess0.realized + net),
               total := sess0.total + net }) ∧
      (∃ closed : Trade, (closeTrade env trade closePrice reason st).2 =
          [Ev.closeEv closed reason, Ev.accountEv trade.account_id] ∧
        closed.pnl = net ∧ closed.exit_price = some closePrice ∧ closed.is_open = false) ∧
      (closeTrade env trade closePrice reason st).1.openTrades =
        st.openTrades.filter (fun t => t.id ≠ trade.id) := by
  have hid : acc.id = trade.account_id := findAccount_id hacc
  refine ⟨(if trade.side = "buy"
      then (closePrice - trade.entry_price) * trade.quantity *
        tickValueOf env.contracts trade.symbol
      else (trade.entry_price - closePrice) * trade.quantity *
        tickValueOf env.contracts trade.symbol) + trade.pnl, ?_, ?_, ?_, ?_, ?_⟩
  · by_cases hs : trade.side = "buy"
    · rw [if_pos hs, if_pos hs]
    · rw [if_neg hs, if_neg hs]
      ring_nf
  · unfold closeTrade
    rw [hacc]
    dsimp only
    exact findAccount_updAccount_self hacc rfl
  · unfold closeTrade
    rw [hacc]
    dsimp only
    rw [hid, findSession_setSession]
    congr 1
    rw [if_gt_eq_max]
  · unfold closeTrade
    rw [hacc]
    dsimp only
    refine ⟨_, by rw [hid], rfl, rfl, rfl⟩
  · unfold closeTrade
    rw [hacc]

/-! ## Concrete data used by witnesses and counterexamples -/

/-- A contract table with one instrument `X` (tickValue 1, spread 5,
commission 50, `maxSlippage` set to 0 to exercise the JS `||` fallback). -/
def demoContracts : Contracts := fun s =>
  if s = "X" then
    some { tickValue := some 1, spread := some 5, commission := some 50,
           maxSlippage := some 0, maxLotsEvaluation := some 100,
           tradingHours := none, convertToINR := false }
  else none

def demoEnv : Env :=
  { contracts := demoContracts
    nrm := fun s => s
    today := "2026-10-11"
    now := 1000000
    hourUTC := 12
    rng := fun _ => 1
    dayPnl := fun _ => 0 }

def demoAccount : Account :=
  { id := "A1", status := "active", current_balance := 50000, start_balance := 50000 }

def demoOpenTrade : Trade :=
  { id := 7, account_id := "A1", symbol := "X", side := "buy", quantity := 1,
    entry_price := 30015, stop_loss := none, take_profit := some 30200,
    time_opened := 0, pnl := -50 }

def demoState : EngineState :=
  { latestPrices := [], pendingOrders := [], openTrades := [demoOpenTrade],
    accounts := [demoAccount], sessions := [], nextId := 100 }

/-- Witness for C1: closing the demo buy trade at 30200 yields
net = (30200 − 30015) × 1 × 1 − 50 = 135 and a balance of 50135. -/
theorem closeTrade_spec_witness :
    (findAccount demoState.accounts demoOpenTrade.account_id = some demoAccount) ∧
    (∃ acc2, findAccount (closeTrade demoEnv demoOpenTrade 30200 (some "TP Hit")
        demoState).1.accounts demoOpenTrade.account_id = some acc2 ∧
      acc2.current_balance = 50135) := by
  refine ⟨by decide, ?_⟩
  obtain ⟨net, hnet, hfind, hsess, hev, hlist⟩ :=
    closeTrade_spec demoEnv demoOpenTrade 30200 (some "TP Hit") demoState demoAccount
      (by decide)
  refine ⟨_, hfind, ?_⟩
  rw [hnet]
  norm_num [demoAccount, demoOpenTrade, demoEnv, demoContracts, tickValueOf, Option.bind]

def c2Account : Account :=
  { id := "A2", status := "active", current_balance := 1000, start_balance := 1000 }

def c2Order : Order :=
  { id := 1, account_id := "A2", symbol := "X", side := "buy", quantity := 3,
    otype := "market" }

def c2State : EngineState :=
  { latestPrices := [], pendingOrders := [], openTrades := [], accounts := [c2Account],
    sessions := [], nextId := 10 }

/-- C2 counterexample: the `X` contract has `maxSlippage = 0`. The code
computes `c?.maxSlippage || 5`, so a zero cap falls back to 5 and the
applied slippage at basePrice 100, prevPrice 50 is `min(50·0.2, 5) = 5`
(trade opens at 100 + 5 + 5 = 110); the claimed `maxSlippage ?? 5` would
keep the 0 and give slippage `min(10, 0) = 0` (open at 105). -/
theorem fillOrder_slippage_counterexample :
    fillSlippage demoContracts "X" 100 50 = 5 ∧
    min (|(100 : Rat) - 50| * (1 / 5)) 0 = 0 ∧
    ((fillOrder demoEnv 1 c2Order 100 50 c2State).1.openTrades.map Trade.entry_price
      = [110]) ∧
    (110 : Rat) ≠ 100 + (5 + min (|(100 : Rat) - 50| * (1 / 5)) 0) := by
  refine ⟨?_, ?_, ?_, ?_⟩
  · norm_num [fillSlippage, jsAbs, jsMin, jsOr, demoContracts, Option.bind]
  · rw [min_eq_right (by positivity)]
  · simp [fillOrder, fillSlippage, evaluateImmediateRisk, findAccount, jsAbs, jsMin,
      jsMaxI, jsOr, truthy, jsGtO, spreadOf, commissionOf, demoContracts, demoEnv,
      c2Order, c2State, c2Account, Option.bind, List.find?, Rat.floor_def']
    norm_num
  · rw [min_eq_right (by positivity)]
    norm_num

theorem evaluateImmediateRisk_price_irrel (accounts : List Account) (ctr : Contracts)
    (accId sym : String) (q p1 p2 : Rat) :
    evaluateImmediateRisk accounts ctr accId sym q p1 =
      evaluateImmediateRisk accounts ctr accId sym q p2 := rfl

/-- C2 amended: for an order whose post-latency risk check passes,
`fillOrder` appends exactly one trade whose entry price is
`basePrice ± (spread + slippage)` (adverse by side) with
`slippage = min(|basePrice − prevPrice| × 0.2, maxSlippage || 5)` when the
gap is positive and 0 otherwise — a falsy (zero) `prevPrice` is replaced by
`basePrice`, and a missing *or zero* `maxSlippage` falls back to 5 (JS
`||`, not the claimed `??`) — the trade opens with
`pnl = −commission × fillQty` for the partial-fill quantity
`fillQty = max(1, ⌊quantity·r⌋)`, the filled pending row is removed and a
positive remainder is re-queued. -/
theorem fillOrder_exec (env : Env) (r : Rat) (order : Order) (basePrice prevPrice : Rat)
    (st : EngineState)
    (hrisk : (evaluateImmediateRisk st.accounts env.contracts order.account_id
        order.symbol order.quantity 0).ok = true) :
    ∃ t : Trade,
      (fillOrder env r order basePrice prevPrice st).1.openTrades = st.openTrades ++ [t] ∧
      t.quantity = ((max 1 (order.quantity * r).floor : Int) : Rat) ∧
      t.pnl = -(commissionOf env.contracts order.symbol) * t.quantity ∧
      t.entry_price = (if order.side = "buy"
        then basePrice + spreadOf env.contracts order.symbol +
          fillSlippage env.contracts order.symbol basePrice prevPrice
        else basePrice - spreadOf env.contracts order.symbol -
          fillSlippage env.contracts order.symbol basePrice prevPrice) ∧
      fillSlippage env.contracts order.symbol basePrice prevPrice =
        (if |basePrice - (if prevPrice = 0 then basePrice else prevPrice)| > 0
          then min (|basePrice - (if prevPrice = 0 then basePrice else prevPrice)| * (1 / 5))
            (jsOr ((env.contracts order.symbol).bind Contract.maxSlippage) 5)
          else 0) ∧
      (fillOrder env r order basePrice prevPrice st).1.pendingOrders =
        (if order.quantity - t.quantity > 0
          then st.pendingOrders.filter (fun o => o.id ≠ order.id) ++
            [{ order with id := st.nextId + 1, quantity := order.quantity - t.quantity }]
          else st.pendingOrders.filter (fun o => o.id ≠ order.id)) := by
  simp only [fillOrder]
  rw [evaluateImmediateRisk_price_irrel st.accounts env.contracts order.account_id
    order.symbol order.quantity _ 0, hrisk]
  rw [if_neg (by simp)]
  by_cases hrem : order.quantity - ((jsMaxI 1 (order.quantity * r).floor : Int) : Rat) > 0
  · rw [if_pos hrem]
    refine ⟨_, rfl, ?_, rfl, rfl, ?_, ?_⟩
    · rw [jsMaxI_eq_max]
    · simp only [fillSlippage, jsAbs_eq_abs, jsMin_eq_min]
    · rw [if_pos hrem]
  · rw [if_neg hrem]
    refine ⟨_, rfl, ?_, rfl, rfl, ?_, ?_⟩
    · rw [jsMaxI_eq_max]
    · simp only [fillSlippage, jsAbs_eq_abs, jsMin_eq_min]
    · rw [if_neg hrem]

/-- Witness for the amended C2 theorem on the concrete market order: risk
passes and the trade opens at 110 with pnl −150. -/
theorem fillOrder_exec_witness :
    ((evaluateImmediateRisk c2State.accounts demoEnv.contracts c2Order.account_id
        c2Order.symbol c2Order.quantity 0).ok = true) ∧
    (∃ t : Trade,
      (fillOrder demoEnv 1 c2Order 100 50 c2State).1.openTrades =
        c2State.openTrades ++ [t] ∧
      t.quantity = ((max 1 (c2Order.quantity * 1).floor : Int) : Rat)) := by
  refine ⟨by decide, ?_⟩
  obtain ⟨t, h1, h2, _⟩ := fillOrder_exec demoEnv 1 c2Order 100 50 c2State (by decide)
  exact ⟨t, h1, h2⟩

def c3Account : Account :=
  { id := "B1", status := "blown", current_balance := 0, start_balance := 1000 }

def c3Order : Order :=
  { id := 5, account_id := "B1", symbol := "X", side := "buy", quantity := 1,
    otype := "limit", limit_price := some 100 }

def c3State : EngineState :=
  { latestPrices := [], pendingOrders := [c3Order], openTrades := [],
    accounts := [c3Account], sessions := [], nextId := 10 }

/-- C3 counterexample: when the post-latency `evaluateImmediateRisk` fails
(here: blown account), `fillOrder` returns through `rejectOrder` *before*
the `pendingOrders = pendingOrders.filter(…)` line — the rejected order is
emitted as `order_reject` and no trade is created, but the pending entry
is NOT removed: it is still in the pending list afterwards. -/
theorem fillOrder_reject_keeps_pending_counterexample :
    (fillOrder demoEnv 1 c3Order 100 100 c3State).1.pendingOrders = [c3Order] ∧
    (fillOrder demoEnv 1 c3Order 100 100 c3State).1.openTrades = [] ∧
    (fillOrder demoEnv 1 c3Order 100 100 c3State).2 =
      [Ev.rejectEv c3Order "ACCOUNT_INACTIVE"] := by
  refine ⟨?_, ?_, ?_⟩ <;> decide

/-- C3 amended: a post-latency risk failure rejects the order (emitting
`order_reject`) and creates no trade, and the whole state — including the
pending list, whose entry for this order is NOT removed — is left
untouched; removal happens only on the success path. -/
theorem fillOrder_reject_spec (env : Env) (r : Rat) (order : Order)
    (basePrice prevPrice : Rat) (st : EngineState)
    (hrisk : (evaluateImmediateRisk st.accounts env.contracts order.account_id
        order.symbol order.quantity 0).ok = false) :
    (fillOrder env r order basePrice prevPrice st).1 = st ∧
    (fillOrder env r order basePrice prevPrice st).2 =
      [Ev.rejectEv order ((evaluateImmediateRisk st.accounts env.contracts
        order.account_id order.symbol order.quantity 0).error.getD "")] := by
  simp only [fillOrder]
  rw [evaluateImmediateRisk_price_irrel st.accounts env.contracts order.account_id
    order.symbol order.quantity _ 0]
  rw [if_pos hrisk]
  exact ⟨rfl, rfl⟩

/-- Witness for the amended C3 theorem on the concrete blown-account limit
order. -/
theorem fillOrder_reject_spec_witness :
    ((evaluateImmediateRisk c3State.accounts demoEnv.contracts c3Order.account_id
        c3Order.symbol c3Order.quantity 0).ok = false) ∧
    (fillOrder demoEnv 1 c3Order 100 100 c3State).1 = c3State :=
  ⟨by decide,
    (fillOrder_reject_spec demoEnv 1 c3Order 100 100 c3State (by decide)).1⟩

/-! ## Per-phase lemmas about fills and closes -/

theorem evaluateImmediateRisk_ok_status (accounts : List Account) (ctr : Contracts)
    (accId sym : String) (q p : Rat)
    (h : (evaluateImmediateRisk accounts ctr accId sym q p).ok = true) :
    ∃ acc, findAccount accounts accId = some acc ∧
      ¬(acc.status = "blown" ∨ acc.status = "suspended") := by
  unfold evaluateImmediateRisk at h
  cases hf : findAccount accounts accId with
  | none => rw [hf] at h; simp at h
  | some acc =>
    rw [hf] at h
    dsimp only at h
    by_cases hs : acc.status = "blown" ∨ acc.status = "suspended"
    · rw [if_pos hs] at h
      simp at h
    · exact ⟨acc, rfl, hs⟩

theorem evaluateImmediateRisk_blown {accounts : List Account} {ctr : Contracts}
    {accId : String} (sym : String) (q p : Rat) {acc : Account}
    (hacc : findAccount accounts accId = some acc) (hb : acc.status = "blown") :
    evaluateImmediateRisk accounts ctr accId sym q p =
      ⟨false, some "ACCOUNT_INACTIVE"⟩ := by
  unfold evaluateImmediateRisk
  rw [hacc]
  dsimp only
  rw [if_pos (Or.inl hb)]

theorem fillOrder_accounts (env : Env) (r : Rat) (order : Order) (bp pp : Rat)
    (st : EngineState) :
    (fillOrder env r order bp pp st).1.accounts = st.accounts := by
  simp only [fillOrder]
  rw [evaluateImmediateRisk_price_irrel st.accounts env.contracts order.account_id
    order.symbol order.quantity _ 0]
  by_cases hrisk : (evaluateImmediateRisk st.accounts env.contracts order.account_id
      order.symbol order.quantity 0).ok = false
  · rw [if_pos hrisk]
  · rw [if_neg hrisk]
    by_cases hrem : order.quantity - ((jsMaxI 1 (order.quantity * r).floor : Int) : Rat) > 0
    · rw [if_pos hrem]
    · rw [if_neg hrem]

theorem fillOrder_openTrades_mem (env : Env) (r : Rat) (order : Order) (bp pp : Rat)
    (st : EngineState) :
    ∀ t ∈ (fillOrder env r order bp pp st).1.openTrades,
      t ∈ st.openTrades ∨
        (t.time_opened = env.now ∧ t.account_id = order.account_id ∧
          (evaluateImmediateRisk st.accounts env.contracts order.account_id order.symbol
            order.quantity 0).ok = true) := by
  simp only [fillOrder]
  rw [evaluateImmediateRisk_price_irrel st.accounts env.contracts order.account_id
    order.symbol order.quantity _ 0]
  by_cases hrisk : (evaluateImmediateRisk st.accounts env.contracts order.account_id
      order.symbol order.quantity 0).ok = false
  · rw [if_pos hrisk]
    intro t ht
    exact Or.inl ht
  · rw [if_neg hrisk]
    have hok : (evaluateImmediateRisk st.accounts env.contracts order.account_id
        order.symbol order.quantity 0).ok = true := by
      cases h : (evaluateImmediateRisk st.accounts env.contracts order.account_id
          order.symbol order.quantity 0).ok
      · exact absurd h hrisk
      · rfl
    by_cases hrem : order.quantity - ((jsMaxI 1 (order.quantity * r).floor : Int) : Rat) > 0
    · rw [if_pos hrem]
      intro t ht
      rcases List.mem_append.1 ht with h | h
      · exact Or.inl h
      · rw [List.mem_singleton.1 h]
        exact Or.inr ⟨rfl, rfl, hok⟩
    · rw [if_neg hrem]
      intro t ht
      rcases List.mem_append.1 ht with h | h
      · exact Or.inl h
      · rw [List.mem_singleton.1 h]
        exact Or.inr ⟨rfl, rfl, hok⟩

theorem fillOrder_ev_shape (env : Env) (r : Rat) (order : Order) (bp pp : Rat)
    (st : EngineState) :
    ∀ e ∈ (fillOrder env r order bp pp st).2,
      (∃ t, e = Ev.fillEv t ∧ t.time_opened = env.now) ∨
        (∃ o rr, e = Ev.rejectEv o rr) ∨ (∃ o, e = Ev.pendingEv o) := by
  simp only [fillOrder]
  rw [evaluateImmediateRisk_price_irrel st.accounts env.contracts order.account_id
    order.symbol order.quantity _ 0]
  by_cases hrisk : (evaluateImmediateRisk st.accounts env.contracts order.account_id
      order.symbol order.quantity 0).ok = false
  · rw [if_pos hrisk]
    intro e he
    rw [List.mem_singleton.1 he]
    exact Or.inr (Or.inl ⟨_, _, rfl⟩)
  · rw [if_neg hrisk]
    by_cases hrem : order.quantity - ((jsMaxI 1 (order.quantity * r).floor : Int) : Rat) > 0
    · rw [if_pos hrem]
      intro e he
      rcases List.mem_cons.1 he with h | h
      · exact Or.inl ⟨_, h, rfl⟩
      · rw [List.mem_singleton.1 h]
        exact Or.inr (Or.inr ⟨_, rfl⟩)
    · rw [if_neg hrem]
      intro e he
      rw [List.mem_singleton.1 he]
      exact Or.inl ⟨_, rfl, rfl⟩

theorem runFills_accounts (env : Env) (price prev : Rat) :
    ∀ (orders : List Order) (i : Nat) (st : EngineState),
      (runFills env price prev i orders st).1.accounts = st.accounts := by
  intro orders
  induction orders with
  | nil => intro i st; rfl
  | cons o rest ih =>
    intro i st
    simp only [runFills]
    rw [ih, fillOrder_accounts]

theorem runFills_openTrades_mem (env : Env) (price prev : Rat) :
    ∀ (orders : List Order) (i : Nat) (st : EngineState),
      ∀ t ∈ (runFills env price prev i orders st).1.openTrades,
        t ∈ st.openTrades ∨
          (t.time_opened = env.now ∧
            ∃ acc, findAccount st.accounts t.account_id = some acc ∧
              ¬(acc.status = "blown" ∨ acc.status = "suspended")) := by
  intro orders
  induction orders with
  | nil =>
    intro i st t ht
    exact Or.inl ht
  | cons o rest ih =>
    intro i st t ht
    simp only [runFills] at ht
    rcases ih (i + 1) (fillOrder env (env.rng i) o price prev st).1 t ht with
      h | ⟨htime, acc, hfind, hstat⟩
    · rcases fillOrder_openTrades_mem env (env.rng i) o price prev st t h with
        h2 | ⟨ht2, hacc2, hok⟩
      · exact Or.inl h2
      · obtain ⟨acc, hfind, hstat⟩ :=
          evaluateImmediateRisk_ok_status st.accounts env.contracts o.account_id
            o.symbol o.quantity 0 hok
        refine Or.inr ⟨ht2, acc, ?_, hstat⟩
        rw [hacc2]
        exact hfind
    · rw [fillOrder_accounts] at hfind
      exact Or.inr ⟨htime, acc, hfind, hstat⟩

theorem runFills_ev_shape (env : Env) (price prev : Rat) :
    ∀ (orders : List Order) (i : Nat) (st : EngineState),
      ∀ e ∈ (runFills env price prev i orders st).2,
        (∃ t, e = Ev.fillEv t ∧ t.time_opened = env.now) ∨
          (∃ o rr, e = Ev.rejectEv o rr) ∨ (∃ o, e = Ev.pendingEv o) := by
  intro orders
  induction orders with
  | nil =>
    intro i st e he
    exact absurd he (List.not_mem_nil e)
  | cons o rest ih =>
    intro i st e he
    simp only [runFills] at he
    rcases List.mem_append.1 he with h | h
    · exact fillOrder_ev_shape env (env.rng i) o price prev st e h
    · exact ih (i + 1) _ e h

theorem closeTrade_openTrades_sub (env : Env) (trade : Trade) (cp : Rat)
    (reason : Option String) (st : EngineState) :
    ∀ u ∈ (closeTrade env trade cp reason st).1.openTrades,
      u ∈ st.openTrades ∧ u.id ≠ trade.id := by
  intro u hu
  unfold closeTrade at hu
  cases hf : findAccount st.accounts trade.account_id <;> rw [hf] at hu <;>
    dsimp only at hu <;>
    exact ⟨(List.mem_filter.1 hu).1, by simpa using (List.mem_filter.1 hu).2⟩

theorem closeTrade_ev_shape (env : Env) (trade : Trade) (cp : Rat)
    (reason : Option String) (st : EngineState) :
    ∀ e ∈ (closeTrade env trade cp reason st).2,
      (∃ t, e = Ev.closeEv t reason ∧ t.time_opened = trade.time_opened ∧
        t.exit_price = some cp) ∨ (∃ a, e = Ev.accountEv a) := by
  intro e he
  unfold closeTrade at he
  cases hf : findAccount st.accounts trade.account_id <;> rw [hf] at he <;>
    dsimp only at he
  · rw [List.mem_singleton.1 he]
    exact Or.inl ⟨_, rfl, rfl, rfl⟩
  · rcases List.mem_cons.1 he with h | h
    · rw [h]
      exact Or.inl ⟨_, rfl, rfl, rfl⟩
    · rw [List.mem_singleton.1 h]
      exact Or.inr ⟨_, rfl⟩

theorem closeTrade_status (env : Env) (trade : Trade) (cp : Rat)
    (reason : Option String) (st : EngineState) (i : String) :
    ((findAccount (closeTrade env trade cp reason st).1.accounts i).map Account.status =
      (findAccount st.accounts i).map Account.status) ∧
    ((findAccount (closeTrade env trade cp reason st).1.accounts i).map Account.blown_reason =
      (findAccount st.accounts i).map Account.blown_reason) := by
  unfold closeTrade
  cases hf : findAccount st.accounts trade.account_id with
  | none => exact ⟨rfl, rfl⟩
  | some acc =>
    dsimp only
    rw [findAccount_updAccount]
    have hid : acc.id = trade.account_id := findAccount_id hf
    by_cases hi : i = trade.account_id
    · subst hi
      rw [hf]
      simp
    · cases hg : findAccount st.accounts i with
      | none => exact ⟨rfl, rfl⟩
      | some a =>
        have ha : a.id = i := findAccount_id hg
        simp only [Option.map_some']
        rw [if_neg (by rw [ha, hid]; exact fun hh => hi hh)]
        exact ⟨rfl, rfl⟩

theorem runBreachCloses_openTrades (env : Env) (tickPrice : Rat) (reason : String) :
    ∀ (list : List Trade) (st : EngineState),
      ∀ u ∈ (runBreachCloses env tickPrice reason list st).1.openTrades,
        u ∈ st.openTrades ∧ ∀ c ∈ list, u.id ≠ c.id := by
  intro list
  induction list with
  | nil =>
    intro st u hu
    exact ⟨hu, fun c hc => absurd hc (List.not_mem_nil c)⟩
  | cons c rest ih =>
    intro st u hu
    simp only [runBreachCloses] at hu
    obtain ⟨hu2, hrest⟩ := ih _ u hu
    obtain ⟨hu3, hcid⟩ := closeTrade_openTrades_sub env c
      (applySlippage c.entry_price tickPrice c.side) (some reason) st u hu2
    refine ⟨hu3, fun d hd => ?_⟩
    rcases List.mem_cons.1 hd with h | h
    · rw [h]
      exact hcid
    · exact hrest d h

theorem runBreachCloses_status (env : Env) (tickPrice : Rat) (reason : String) :
    ∀ (list : List Trade) (st : EngineState) (i : String),
      ((findAccount (runBreachCloses env tickPrice reason list st).1.accounts i).map
          Account.status = (findAccount st.accounts i).map Account.status) ∧
      ((findAccount (runBreachCloses env tickPrice reason list st).1.accounts i).map
          Account.blown_reason = (findAccount st.accounts i).map Account.blown_reason) := by
  intro list
  induction list with
  | nil => intro st i; exact ⟨rfl, rfl⟩
  | cons c rest ih =>
    intro st i
    simp only [runBreachCloses]
    obtain ⟨h1, h2⟩ := ih (closeTrade env c
      (applySlippage c.entry_price tickPrice c.side) (some reason) st).1 i
    obtain ⟨h3, h4⟩ := closeTrade_status env c
      (applySlippage c.entry_price tickPrice c.side) (some reason) st i
    exact ⟨h1.trans h3, h2.trans h4⟩

theorem runBreachCloses_ev_shape (env : Env) (tickPrice : Rat) (reason : String) :
    ∀ (list : List Trade) (st : EngineState),
      ∀ e ∈ (runBreachCloses env tickPrice reason list st).2,
        (∃ t pos, pos ∈ list ∧ e = Ev.closeEv t (some reason) ∧
          t.time_opened = pos.time_opened ∧
          t.exit_price = some (applySlippage pos.entry_price tickPrice pos.side)) ∨
        (∃ a, e = Ev.accountEv a) := by
  intro list
  induction list with
  | nil =>
    intro st e he
    exact absurd he (List.not_mem_nil e)
  | cons c rest ih =>
    intro st e he
    simp only [runBreachCloses] at he
    rcases List.mem_append.1 he with h | h
    · rcases closeTrade_ev_shape env c (applySlippage c.entry_price tickPrice c.side)
        (some reason) st e h with ⟨t, he2, ht, hx⟩ | ⟨a, ha⟩
      · exact Or.inl ⟨t, c, List.mem_cons_self c rest, he2, ht, hx⟩
      · exact Or.inr ⟨a, ha⟩
    · rcases ih _ e h with ⟨t, pos, hpos, he2, ht, hx⟩ | ⟨a, ha⟩
      · exact Or.inl ⟨t, pos, List.mem_cons_of_mem c hpos, he2, ht, hx⟩
      · exact Or.inr ⟨a, ha⟩

/-- After `handleBreach` the account row is blown with the given reason and
none of the account's open positions remain. -/
theorem handleBreach_spec (env : Env) (account : Account) (tickPrice : Rat)
    (reason : String) (st : EngineState)
    (hacc : findAccount st.accounts account.id = some account) :
    ((findAccount (handleBreach env account tickPrice reason st).1.accounts
        account.id).map Account.status = some "blown") ∧
    ((findAccount (handleBreach env account tickPrice reason st).1.accounts
        account.id).map Account.blown_reason = some (some reason)) ∧
    (∀ u ∈ (handleBreach env account tickPrice reason st).1.openTrades,
      u.account_id ≠ account.id) := by
  unfold handleBreach
  refine ⟨?_, ?_, ?_⟩
  · rw [(runBreachCloses_status env tickPrice reason _ _ account.id).1]
    dsimp only
    rw [@findAccount_updAccount_self st.accounts account.id account
      ({ account with status := "blown", blown_reason := some reason }) hacc rfl]
    rfl
  · rw [(runBreachCloses_status env tickPrice reason _ _ account.id).2]
    dsimp only
    rw [@findAccount_updAccount_self st.accounts account.id account
      ({ account with status := "blown", blown_reason := some reason }) hacc rfl]
    rfl
  · intro u hu
    obtain ⟨humem, hids⟩ := runBreachCloses_openTrades env tickPrice reason _ _ u hu
    intro hacc2
    exact hids u (List.mem_filter.2 ⟨humem, by simpa using hacc2⟩) rfl

theorem handleBreach_openTrades_sub (env : Env) (account : Account) (tickPrice : Rat)
    (reason : String) (st : EngineState) :
    ∀ u ∈ (handleBreach env account tickPrice reason st).1.openTrades,
      u ∈ st.openTrades := by
  intro u hu
  unfold handleBreach at hu
  exact (runBreachCloses_openTrades env tickPrice reason _ _ u hu).1

theorem handleBreach_ev_shape (env : Env) (account : Account) (tickPrice : Rat)
    (reason : String) (st : EngineState) :
    ∀ e ∈ (handleBreach env account tickPrice reason st).2,
      (∃ t pos, pos ∈ st.openTrades ∧ e = Ev.closeEv t (some reason) ∧
        t.exit_price = some (applySlippage pos.entry_price tickPrice pos.side)) ∨
      (∃ a, e = Ev.accountEv a) := by
  intro e he
  unfold handleBreach at he
  rcases runBreachCloses_ev_shape env tickPrice reason _ _ e he with
    ⟨t, pos, hpos, he2, _, hx⟩ | ⟨a, ha⟩
  · exact Or.inl ⟨t, pos, (List.mem_filter.1 hpos).1, he2, hx⟩
  · exact Or.inr ⟨a, ha⟩

theorem runSltpCloses_openTrades_sub (env : Env) (price : Rat) :
    ∀ (list : List Trade) (st : EngineState),
      ∀ u ∈ (runSltpCloses env price list st).1.openTrades, u ∈ st.openTrades := by
  intro list
  induction list with
  | nil => intro st u hu; exact hu
  | cons c rest ih =>
    intro st u hu
    simp only [runSltpCloses] at hu
    exact (closeTrade_openTrades_sub env c price (some "SLTP Trigger") st u (ih _ u hu)).1

theorem runSltpCloses_ev_shape (env : Env) (price : Rat) :
    ∀ (list : List Trade) (st : EngineState),
      ∀ e ∈ (runSltpCloses env price list st).2,
        (∃ t t0, t0 ∈ list ∧ e = Ev.closeEv t (some "SLTP Trigger") ∧
          t.time_opened = t0.time_opened ∧ t.exit_price = some price) ∨
        (∃ a, e = Ev.accountEv a) := by
  intro list
  induction list with
  | nil => intro st e he; exact absurd he (List.not_mem_nil e)
  | cons c rest ih =>
    intro st e he
    simp only [runSltpCloses] at he
    rcases List.mem_append.1 he with h | h
    · rcases closeTrade_ev_shape env c price (some "SLTP Trigger") st e h with
        ⟨t, he2, ht, hx⟩ | ⟨a, ha⟩
      · exact Or.inl ⟨t, c, List.mem_cons_self c rest, he2, ht, hx⟩
      · exact Or.inr ⟨a, ha⟩
    · rcases ih _ e h with ⟨t, t0, ht0, he2, ht, hx⟩ | ⟨a, ha⟩
      · exact Or.inl ⟨t, t0, List.mem_cons_of_mem c ht0, he2, ht, hx⟩
      · exact Or.inr ⟨a, ha⟩

theorem runRiskSltp_openTrades_sub (env : Env) (symbol : String) (tickPrice : Rat) :
    ∀ (list : List Trade) (st : EngineState),
      ∀ u ∈ (runRiskSltp env symbol tickPrice list st).1.openTrades, u ∈ st.openTrades := by
  intro list
  induction list with
  | nil => intro st u hu; exact hu
  | cons pos rest ih =>
    intro st u hu
    rw [runRiskSltp] at hu
    by_cases h1 : pos.symbol ≠ symbol
    · rw [if_pos h1] at hu
      exact ih st u hu
    · rw [if_neg h1] at hu
      by_cases h2 : env.now - pos.time_opened < SLTP_GRACE_MS
      · rw [if_pos h2] at hu
        exact ih st u hu
      · rw [if_neg h2] at hu
        cases hr : riskSltpReason tickPrice pos with
        | none =>
          rw [hr] at hu
          exact ih st u hu
        | some reason =>
          rw [hr] at hu
          dsimp only at hu
          exact (closeTrade_openTrades_sub env pos
            (applySlippage pos.entry_price tickPrice pos.side) (some reason) st u
            (ih _ u hu)).1

theorem riskSltpReason_cases (tickPrice : Rat) (pos : Trade) {rr : String}
    (h : riskSltpReason tickPrice pos = some rr) : rr = "SL Hit" ∨ rr = "TP Hit" := by
  unfold riskSltpReason at h
  by_cases h1 : ((pos.side = "buy" && jsLeO tickPrice pos.stop_loss) ||
      (pos.side = "sell" && jsGeO tickPrice pos.stop_loss)) = true
  · rw [if_pos h1] at h
    exact Or.inl (Option.some.inj h).symm
  · rw [if_neg h1] at h
    by_cases h2 : ((pos.side = "buy" && jsGeO tickPrice pos.take_profit) ||
        (pos.side = "sell" && jsLeO tickPrice pos.take_profit)) = true
    · rw [if_pos h2] at h
      exact Or.inr (Option.some.inj h).symm
    · rw [if_neg h2] at h
      exact absurd h (by simp)

theorem runRiskSltp_ev_shape (env : Env) (symbol : String) (tickPrice : Rat) :
    ∀ (list : List Trade) (st : EngineState),
      ∀ e ∈ (runRiskSltp env symbol tickPrice list st).2,
        (∃ t pos rr, pos ∈ list ∧ e = Ev.closeEv t (some rr) ∧
          (rr = "SL Hit" ∨ rr = "TP Hit") ∧ t.time_opened = pos.time_opened ∧
          ¬(env.now - pos.time_opened < SLTP_GRACE_MS) ∧
          t.exit_price = some (applySlippage pos.entry_price tickPrice pos.side)) ∨
        (∃ a, e = Ev.accountEv a) := by
  intro list
  induction list with
  | nil => intro st e he; exact absurd he (List.not_mem_nil e)
  | cons pos rest ih =>
    intro st e he
    rw [runRiskSltp] at he
    by_cases h1 : pos.symbol ≠ symbol
    · rw [if_pos h1] at he
      rcases ih st e he with ⟨t, p0, rr, hp, h⟩ | ha
      · exact Or.inl ⟨t, p0, rr, List.mem_cons_of_mem pos hp, h⟩
      · exact Or.inr ha
    · rw [if_neg h1] at he
      by_cases h2 : env.now - pos.time_opened < SLTP_GRACE_MS
      · rw [if_pos h2] at he
        rcases ih st e he with ⟨t, p0, rr, hp, h⟩ | ha
        · exact Or.inl ⟨t, p0, rr, List.mem_cons_of_mem pos hp, h⟩
        · exact Or.inr ha
      · rw [if_neg h2] at he
        cases hr : riskSltpReason tickPrice pos with
        | none =>
          rw [hr] at he
          rcases ih st e he with ⟨t, p0, rr, hp, h⟩ | ha
          · exact Or.inl ⟨t, p0, rr, List.mem_cons_of_mem pos hp, h⟩
          · exact Or.inr ha
        | some reason =>
          rw [hr] at he
          dsimp only at he
          rcases List.mem_append.1 he with h | h
          · rcases closeTrade_ev_shape env pos
              (applySlippage pos.entry_price tickPrice pos.side) (some reason) st e h with
              ⟨t, he2, ht, hx⟩ | ⟨a, ha⟩
            · exact Or.inl ⟨t, pos, reason, List.mem_cons_self pos rest, he2,
                riskSltpReason_cases tickPrice pos hr, ht, h2, hx⟩
            · exact Or.inr ⟨a, ha⟩
          · rcases ih _ e h with ⟨t, p0, rr, hp, hh⟩ | ha
            · exact Or.inl ⟨t, p0, rr, List.mem_cons_of_mem pos hp, hh⟩
            · exact Or.inr ha

theorem consistencyAndTarget_spec (env : Env) (st : EngineState) (acc : Account) :
    (consistencyAndTarget env st acc).2 = [] ∧
      (consistencyAndTarget env st acc).1.openTrades = st.openTrades := by
  simp only [consistencyAndTarget]
  refine ⟨?_, ?_⟩ <;> (repeat' split) <;> rfl

theorem evalAccountStep_openTrades_sub (env : Env) (tickPrice : Rat) (st : EngineState)
    (accId : String) :
    ∀ u ∈ (evalAccountStep env tickPrice st accId).1.openTrades, u ∈ st.openTrades := by
  intro u hu
  simp only [evalAccountStep] at hu
  split at hu
  · exact hu
  · split at hu
    · exact hu
    · split at hu
      · exact handleBreach_openTrades_sub _ _ _ _ _ u hu
      · split at hu
        · exact handleBreach_openTrades_sub _ _ _ _ _ u hu
        · split at hu
          · split at hu <;> split at hu
            · have h2 := handleBreach_openTrades_sub _ _ _ _ _ u hu
              exact h2
            · rw [(consistencyAndTarget_spec _ _ _).2] at hu
              exact hu
            · have h2 := handleBreach_openTrades_sub _ _ _ _ _ u hu
              exact h2
            · rw [(consistencyAndTarget_spec _ _ _).2] at hu
              exact hu
          · rw [(consistencyAndTarget_spec _ _ _).2] at hu
            exact hu

theorem evalAccountStep_ev_shape (env : Env) (tickPrice : Rat) (st : EngineState)
    (accId : String) :
    ∀ e ∈ (evalAccountStep env tickPrice st accId).2,
      (∃ t rr pos, pos ∈ st.openTrades ∧ e = Ev.closeEv t (some rr) ∧
        (rr = "MAX_LOSS" ∨ rr = "DAILY_LOSS_LIMIT" ∨ rr = "TRAILING_DRAWDOWN") ∧
        t.exit_price = some (applySlippage pos.entry_price tickPrice pos.side)) ∨
      (∃ a, e = Ev.accountEv a) := by
  intro e he
  simp only [evalAccountStep] at he
  split at he
  · exact absurd he (List.not_mem_nil e)
  · split at he
    · exact absurd he (List.not_mem_nil e)
    · split at he
      · rcases handleBreach_ev_shape _ _ _ _ _ e he with ⟨t, pos, hp, he2, hx⟩ | ha
        · exact Or.inl ⟨t, _, pos, hp, he2, Or.inl rfl, hx⟩
        · exact Or.inr ha
      · split at he
        · rcases handleBreach_ev_shape _ _ _ _ _ e he with ⟨t, pos, hp, he2, hx⟩ | ha
          · exact Or.inl ⟨t, _, pos, hp, he2, Or.inr (Or.inl rfl), hx⟩
          · exact Or.inr ha
        · split at he
          · split at he <;> split at he
            · rcases handleBreach_ev_shape _ _ _ _ _ e he with ⟨t, pos, hp, he2, hx⟩ | ha
              · exact Or.inl ⟨t, _, pos, hp, he2, Or.inr (Or.inr rfl), hx⟩
              · exact Or.inr ha
            · rw [(consistencyAndTarget_spec _ _ _).1] at he
              exact absurd he (List.not_mem_nil e)
            · rcases handleBreach_ev_shape _ _ _ _ _ e he with ⟨t, pos, hp, he2, hx⟩ | ha
              · exact Or.inl ⟨t, _, pos, hp, he2, Or.inr (Or.inr rfl), hx⟩
              · exact Or.inr ha
            · rw [(consistencyAndTarget_spec _ _ _).1] at he
              exact absurd he (List.not_mem_nil e)
          · rw [(consistencyAndTarget_spec _ _ _).1] at he
            exact absurd he (List.not_mem_nil e)

theorem runAccountChecks_openTrades_sub (env : Env) (tickPrice : Rat) :
    ∀ (ids : List String) (st : EngineState),
      ∀ u ∈ (runAccountChecks env tickPrice ids st).1.openTrades, u ∈ st.openTrades := by
  intro ids
  induction ids with
  | nil => intro st u hu; exact hu
  | cons i rest ih =>
    intro st u hu
    simp only [runAccountChecks] at hu
    exact evalAccountStep_openTrades_sub env tickPrice st i u (ih _ u hu)

theorem runAccountChecks_ev_shape (env : Env) (tickPrice : Rat) :
    ∀ (ids : List String) (st : EngineState),
      ∀ e ∈ (runAccountChecks env tickPrice ids st).2,
        (∃ t rr pos, pos ∈ st.openTrades ∧ e = Ev.closeEv t (some rr) ∧
          (rr = "MAX_LOSS" ∨ rr = "DAILY_LOSS_LIMIT" ∨ rr = "TRAILING_DRAWDOWN") ∧
          t.exit_price = some (applySlippage pos.entry_price tickPrice pos.side)) ∨
        (∃ a, e = Ev.accountEv a) := by
  intro ids
  induction ids with
  | nil => intro st e he; exact absurd he (List.not_mem_nil e)
  | cons i rest ih =>
    intro st e he
    simp only [runAccountChecks] at he
    rcases List.mem_append.1 he with h | h
    · exact evalAccountStep_ev_shape env tickPrice st i e h
    · rcases ih _ e h with ⟨t, rr, pos, hp, hrest⟩ | ha
      · exact Or.inl ⟨t, rr, pos,
          evalAccountStep_openTrades_sub env tickPrice st i pos hp, hrest⟩
      · exact Or.inr ha

theorem evaluateOpenPositions_openTrades_sub (env : Env) (symbol : String)
    (tickPrice : Rat) (st : EngineState) :
    ∀ u ∈ (evaluateOpenPositions env symbol tickPrice st).1.openTrades,
      u ∈ st.openTrades := by
  intro u hu
  unfold evaluateOpenPositions at hu
  split at hu
  · exact hu
  · exact runRiskSltp_openTrades_sub env symbol tickPrice st.openTrades st u
      (runAccountChecks_openTrades_sub env tickPrice _ _ u hu)

theorem evaluateOpenPositions_ev_shape (env : Env) (symbol : String)
    (tickPrice : Rat) (st : EngineState) :
    ∀ e ∈ (evaluateOpenPositions env symbol tickPrice st).2,
      (∃ t rr pos, pos ∈ st.openTrades ∧ e = Ev.closeEv t (some rr) ∧
        rr ≠ "SLTP Trigger" ∧
        t.exit_price = some (applySlippage pos.entry_price tickPrice pos.side) ∧
        ((rr = "SL Hit" ∨ rr = "TP Hit") → (t.time_opened = pos.time_opened ∧
          ¬(env.now - pos.time_opened < SLTP_GRACE_MS)))) ∨
      (∃ a, e = Ev.accountEv a) := by
  intro e he
  unfold evaluateOpenPositions at he
  split at he
  · exact absurd he (List.not_mem_nil e)
  · rcases List.mem_append.1 he with h | h
    · rcases runRiskSltp_ev_shape env symbol tickPrice st.openTrades st e h with
        ⟨t, pos, rr, hp, he2, hrr, ht, hg, hx⟩ | ha
      · refine Or.inl ⟨t, rr, pos, hp, he2, ?_, hx, fun _ => ⟨ht, hg⟩⟩
        rcases hrr with h | h <;> rw [h] <;> decide
      · exact Or.inr ha
    · rcases runAccountChecks_ev_shape env tickPrice _ _ e h with
        ⟨t, rr, pos, hp, he2, hrr, hx⟩ | ha
      · refine Or.inl ⟨t, rr, pos,
          runRiskSltp_openTrades_sub env symbol tickPrice st.openTrades st pos hp,
          he2, ?_, hx, ?_⟩
        · rcases hrr with h | h | h <;> rw [h] <;> decide
        · intro hc
          exfalso
          rcases hrr with h | h | h <;> rcases hc with hc | hc <;> rw [h] at hc <;>
            exact absurd hc (by decide)
      · exact Or.inr ha

theorem upnlRefresh_openTrades (env : Env) (price : Rat) (st : EngineState) :
    (upnlRefresh env price st).1.openTrades = st.openTrades := rfl

theorem upnlRefresh_pending (env : Env) (price : Rat) (st : EngineState) :
    (upnlRefresh env price st).1.pendingOrders = st.pendingOrders := rfl

theorem upnlRefresh_ev_shape (env : Env) (price : Rat) (st : EngineState) :
    ∀ e ∈ (upnlRefresh env price st).2, ∃ i v, e = Ev.upnlEv i v := by
  intro e he
  simp only [upnlRefresh, List.mem_map] at he
  obtain ⟨a, _, ha⟩ := he
  exact ⟨a.id, _, ha.symm⟩

theorem sltpEligible_grace {norm : String} {price : Rat} {now : Int} {t : Trade}
    (h : sltpEligible norm price now t = true) :
    ¬(now - t.time_opened < SLTP_GRACE_MS) := by
  unfold sltpEligible at h
  simp only [Bool.and_eq_true, Bool.not_eq_true', decide_eq_false_iff_not] at h
  exact h.1.2

theorem processTick_ev_cases (env : Env) (symbol : String) (price : Rat)
    (st : EngineState) :
    ∀ e ∈ (processTick env symbol price st).2,
      (∀ t, e = Ev.fillEv t → t.time_opened = env.now) ∧
      (∀ t rr, e = Ev.closeEv t (some rr) →
        (rr = "SLTP Trigger" ∨ rr = "SL Hit" ∨ rr = "TP Hit") →
        env.now - t.time_opened ≥ SLTP_GRACE_MS) := by
  intro e he
  simp only [processTick] at he
  rcases List.mem_cons.1 he with h | h
  · subst h
    exact ⟨(fun t ht => nomatch ht), fun t rr ht => nomatch ht⟩
  · rcases List.mem_append.1 h with h | h
    · rcases List.mem_append.1 h with h | h
      · rcases List.mem_append.1 h with h | h
        · obtain ⟨i, v, rfl⟩ := upnlRefresh_ev_shape _ _ _ e h
          exact ⟨(fun t ht => nomatch ht), fun t rr ht => nomatch ht⟩
        · rcases runFills_ev_shape _ _ _ _ _ _ e h with
            ⟨t, rfl, htime⟩ | ⟨o, rr, rfl⟩ | ⟨o, rfl⟩
          · refine ⟨fun t' ht => ?_, fun t' rr ht => nomatch ht⟩
            cases ht
            exact htime
          · exact ⟨(fun t' ht => nomatch ht), fun t' rr' ht => nomatch ht⟩
          · exact ⟨(fun t' ht => nomatch ht), fun t' rr' ht => nomatch ht⟩
      · rcases runSltpCloses_ev_shape _ _ _ _ e h with
          ⟨t, t0, ht0, rfl, htime, _⟩ | ⟨a, rfl⟩
        · refine ⟨(fun t' ht => nomatch ht), fun t' rr ht _ => ?_⟩
          cases ht
          have hg := sltpEligible_grace (List.mem_filter.1 ht0).2
          rw [htime]
          omega
        · exact ⟨(fun t' ht => nomatch ht), fun t' rr ht => nomatch ht⟩
    · rcases evaluateOpenPositions_ev_shape _ _ _ _ e h with
        ⟨t, rr, pos, _, rfl, hne, _, himp⟩ | ⟨a, rfl⟩
      · refine ⟨(fun t' ht => nomatch ht), fun t' rr' ht hset => ?_⟩
        cases ht
        rcases hset with hs | hs
        · exact absurd hs hne
        · obtain ⟨hteq, hg⟩ := himp hs
          rw [hteq]
          omega
      · exact ⟨(fun t' ht => nomatch ht), fun t' rr ht => nomatch ht⟩

set_option maxRecDepth 8000 in
/-- C4: on every tick, `processTick` runs the mark update, the uPnL
refresh, the limit-fill scan, the grace-gated SL/TP scan and the
risk-engine hand-off in this order; every trade filled on the tick opens
at `env.now`, every SL/TP-style close (`"SLTP Trigger"`, `"SL Hit"`,
`"TP Hit"`) hits a trade opened at least `SLTP_GRACE_MS = 1000` ms before
the tick, so no trade can be closed by SL/TP on the same tick whose limit
fill created it. -/
theorem processTick_grace_spec (env : Env) (symbol : String) (price : Rat)
    (st : EngineState) :
    (∀ t, Ev.fillEv t ∈ (processTick env symbol price st).2 →
      t.time_opened = env.now) ∧
    (∀ t rr, Ev.closeEv t (some rr) ∈ (processTick env symbol price st).2 →
      (rr = "SLTP Trigger" ∨ rr = "SL Hit" ∨ rr = "TP Hit") →
      env.now - t.time_opened ≥ SLTP_GRACE_MS) ∧
    (∀ t u rr, Ev.fillEv t ∈ (processTick env symbol price st).2 →
      Ev.closeEv u (some rr) ∈ (processTick env symbol price st).2 →
      (rr = "SLTP Trigger" ∨ rr = "SL Hit" ∨ rr = "TP Hit") → t ≠ u) := by
  refine ⟨fun t ht => (processTick_ev_cases env symbol price st _ ht).1 t rfl,
    fun t rr ht hset => (processTick_ev_cases env symbol price st _ ht).2 t rr rfl hset,
    fun t u rr ht hu hset heq => ?_⟩
  have h1 := (processTick_ev_cases env symbol price st _ ht).1 t rfl
  have h2 := (processTick_ev_cases env symbol price st _ hu).2 u rr rfl hset
  rw [heq] at h1
  rw [h1] at h2
  simp only [SLTP_GRACE_MS] at h2
  omega

def c4Trade : Trade :=
  { id := 3, account_id := "A1", symbol := "X", side := "buy", quantity := 1,
    entry_price := 30015, stop_loss := some 29000, time_opened := 900000, pnl := -50 }

def c4Closed : Trade :=
  { c4Trade with
      is_open := false
      status := "closed"
      exit_price := some 29000
      pnl := -1065
      exit_reason := some "SLTP Trigger"
      time_closed := some 1000000 }

def c4State : EngineState :=
  { latestPrices := [], pendingOrders := [], openTrades := [c4Trade], accounts := [],
    sessions := [], nextId := 0 }

/-- Witness for C4: the tick at 29000 SLTP-closes the demo trade opened
100 s earlier, and `processTick_grace_spec` yields the grace bound for it. -/
theorem processTick_grace_spec_witness :
    (Ev.closeEv c4Closed (some "SLTP Trigger") ∈
      (processTick demoEnv "X" 29000 c4State).2) ∧
    demoEnv.now - c4Closed.time_opened ≥ SLTP_GRACE_MS := by
  have hmem : Ev.closeEv c4Closed (some "SLTP Trigger") ∈
      (processTick demoEnv "X" 29000 c4State).2 := by
    norm_num [processTick, upnlRefresh, runFills, runSltpCloses, evaluateOpenPositions,
      runRiskSltp, runAccountChecks, closeTrade, sltpEligible, limitEligible,
      findAccount, findSession, lookupPrice, setPrice, tickValueOf, jsLeO, jsGeO,
      demoEnv, demoContracts, c4State, c4Trade, c4Closed, Option.bind, SLTP_GRACE_MS,
      upnlOf]
  exact ⟨hmem, (processTick_grace_spec demoEnv "X" 29000 c4State).2.1 c4Closed
    "SLTP Trigger" hmem (Or.inl rfl)⟩

theorem upnlRefresh_findAccount (env : Env) (price : Rat) (st : EngineState)
    (accId : String) :
    findAccount (upnlRefresh env price st).1.accounts accId =
      (findAccount st.accounts accId).map
        (fun a => { a with upnl := upnlOf env.contracts price st.openTrades a.id }) :=
  find?_map_id_preserving st.accounts
    (fun a => { a with upnl := upnlOf env.contracts price st.openTrades a.id })
    (fun _ => rfl) accId

theorem fillOrder_fillEv_risk (env : Env) (r : Rat) (order : Order) (bp pp : Rat)
    (st : EngineState) :
    ∀ t, Ev.fillEv t ∈ (fillOrder env r order bp pp st).2 →
      t.account_id = order.account_id ∧
      (evaluateImmediateRisk st.accounts env.contracts order.account_id order.symbol
        order.quantity 0).ok = true := by
  simp only [fillOrder]
  rw [evaluateImmediateRisk_price_irrel st.accounts env.contracts order.account_id
    order.symbol order.quantity _ 0]
  by_cases hrisk : (evaluateImmediateRisk st.accounts env.contracts order.account_id
      order.symbol order.quantity 0).ok = false
  · rw [if_pos hrisk]
    intro t ht
    exact absurd (List.mem_singleton.1 ht) (fun h => nomatch h)
  · rw [if_neg hrisk]
    have hok : (evaluateImmediateRisk st.accounts env.contracts order.account_id
        order.symbol order.quantity 0).ok = true := by
      cases h : (evaluateImmediateRisk st.accounts env.contracts order.account_id
          order.symbol order.quantity 0).ok
      · exact absurd h hrisk
      · rfl
    by_cases hrem : order.quantity - ((jsMaxI 1 (order.quantity * r).floor : Int) : Rat) > 0
    · rw [if_pos hrem]
      intro t ht
      rcases List.mem_cons.1 ht with h | h
      · cases h
        exact ⟨rfl, hok⟩
      · exact absurd (List.mem_singleton.1 h) (fun h2 => nomatch h2)
    · rw [if_neg hrem]
      intro t ht
      cases List.mem_singleton.1 ht
      exact ⟨rfl, hok⟩

theorem runFills_fillEv_risk (env : Env) (price prev : Rat) :
    ∀ (orders : List Order) (i : Nat) (st : EngineState),
      ∀ t, Ev.fillEv t ∈ (runFills env price prev i orders st).2 →
        ∃ acc, findAccount st.accounts t.account_id = some acc ∧
          ¬(acc.status = "blown" ∨ acc.status = "suspended") := by
  intro orders
  induction orders with
  | nil => intro i st t ht; exact absurd ht (List.not_mem_nil _)
  | cons o rest ih =>
    intro i st t ht
    simp only [runFills] at ht
    rcases List.mem_append.1 ht with h | h
    · obtain ⟨hacc, hok⟩ := fillOrder_fillEv_risk env (env.rng i) o price prev st t h
      obtain ⟨acc, hfind, hstat⟩ := evaluateImmediateRisk_ok_status st.accounts
        env.contracts o.account_id o.symbol o.quantity 0 hok
      refine ⟨acc, ?_, hstat⟩
      rw [hacc]
      exact hfind
    · obtain ⟨acc, hfind, hstat⟩ := ih (i + 1) _ t h
      rw [fillOrder_accounts] at hfind
      exact ⟨acc, hfind, hstat⟩

theorem processTick_openTrades_mem (env : Env) (symbol : String) (price : Rat)
    (st : EngineState) :
    ∀ t ∈ (processTick env symbol price st).1.openTrades,
      t ∈ st.openTrades ∨
        (t.time_opened = env.now ∧
          ∃ acc, findAccount st.accounts t.account_id = some acc ∧
            ¬(acc.status = "blown" ∨ acc.status = "suspended")) := by
  simp only [processTick]
  intro t ht
  have h1 := evaluateOpenPositions_openTrades_sub _ _ _ _ t ht
  have h2 := runSltpCloses_openTrades_sub _ _ _ _ t h1
  rcases runFills_openTrades_mem _ _ _ _ _ _ t h2 with h | ⟨htime, acc2, hfind, hstat⟩
  · exact Or.inl h
  · rw [upnlRefresh_findAccount] at hfind
    cases hg : findAccount st.accounts t.account_id with
    | none =>
      rw [hg] at hfind
      exact absurd hfind (by simp)
    | some a =>
      rw [hg] at hfind
      have hupd := Option.some.inj hfind
      refine Or.inr ⟨htime, a, rfl, fun hcon => hstat ?_⟩
      rw [← hupd]
      exact hcon

theorem processTick_fillEv_status (env : Env) (symbol : String) (price : Rat)
    (st : EngineState) :
    ∀ t, Ev.fillEv t ∈ (processTick env symbol price st).2 →
      ∃ acc, findAccount st.accounts t.account_id = some acc ∧
        ¬(acc.status = "blown" ∨ acc.status = "suspended") := by
  simp only [processTick]
  intro t ht
  rcases List.mem_cons.1 ht with h | h
  · exact absurd h (fun h2 => nomatch h2)
  · rcases List.mem_append.1 h with h | h
    · rcases List.mem_append.1 h with h | h
      · rcases List.mem_append.1 h with h | h
        · obtain ⟨i, v, hiv⟩ := upnlRefresh_ev_shape _ _ _ _ h
          exact absurd hiv (fun h2 => nomatch h2)
        · obtain ⟨acc2, hfind, hstat⟩ := runFills_fillEv_risk _ _ _ _ _ _ t h
          rw [upnlRefresh_findAccount] at hfind
          cases hg : findAccount st.accounts t.account_id with
          | none =>
            rw [hg] at hfind
            exact absurd hfind (by simp)
          | some a =>
            rw [hg] at hfind
            have hupd := Option.some.inj hfind
            refine ⟨a, rfl, fun hcon => hstat ?_⟩
            rw [← hupd]
            exact hcon
      · rcases runSltpCloses_ev_shape _ _ _ _ _ h with ⟨t2, t0, _, hev, _⟩ | ⟨a, hev⟩ <;>
          exact absurd hev (fun h2 => nomatch h2)
    · rcases evaluateOpenPositions_ev_shape _ _ _ _ _ h with
        ⟨t2, rr, pos, _, hev, _⟩ | ⟨a, hev⟩ <;>
        exact absurd hev (fun h2 => nomatch h2)

theorem preTradeRiskCheck_blown {accounts : List Account} {accId : String}
    {acc : Account} (ctr : Contracts) (hourUTC : Rat) (sym : String) (q : Rat)
    (hacc : findAccount accounts accId = some acc) (hb : acc.status = "blown") :
    preTradeRiskCheck accounts ctr hourUTC accId sym q =
      ⟨false, some "ACCOUNT_INACTIVE"⟩ := by
  unfold preTradeRiskCheck
  rw [hacc]
  dsimp only
  rw [if_pos (Or.inl hb)]

set_option maxRecDepth 8000 in
/-- C7: a blown account gets no new trades while its status stays blown:
on any tick every open trade of the account after `processTick` was
already open before it and no fill event is emitted for it (so a pending
limit order of the account that becomes fill-eligible produces no trade),
and `placeOrder` for the account leaves the state unchanged and emits a
single rejection. -/
theorem blown_account_no_new_trades (env : Env) (symbol : String) (price : Rat)
    (st : EngineState) (accId : String) (acc : Account)
    (hacc : findAccount st.accounts accId = some acc) (hb : acc.status = "blown")
    (isDup : Bool) (livePrice kvUsdInr : Option Rat) (order : Order)
    (horder : order.account_id = accId) :
    (∀ t ∈ (processTick env symbol price st).1.openTrades,
      t.account_id = accId → t ∈ st.openTrades) ∧
    (∀ t, Ev.fillEv t ∈ (processTick env symbol price st).2 →
      t.account_id ≠ accId) ∧
    ((placeOrder env isDup livePrice kvUsdInr order st).1 = st ∧
      ∃ o rr, (placeOrder env isDup livePrice kvUsdInr order st).2 =
        [Ev.rejectEv o rr]) := by
  subst horder
  refine ⟨?_, ?_, ?_⟩
  · intro t ht htacc
    rcases processTick_openTrades_mem env symbol price st t ht with
      h | ⟨_, acc2, hfind, hstat⟩
    · exact h
    · rw [htacc, hacc] at hfind
      exact absurd (Or.inl (by rw [Option.some.inj hfind] at hb; exact hb)) hstat
  · intro t ht htacc
    obtain ⟨acc2, hfind, hstat⟩ := processTick_fillEv_status env symbol price st t ht
    rw [htacc, hacc] at hfind
    exact absurd (Or.inl (by rw [Option.some.inj hfind] at hb; exact hb)) hstat
  · simp only [placeOrder]
    cases isDup with
    | true =>
      rw [if_pos rfl]
      exact ⟨rfl, _, _, rfl⟩
    | false =>
      rw [if_neg (fun h => nomatch h)]
      rw [preTradeRiskCheck_blown env.contracts env.hourUTC
        (env.nrm order.symbol) order.quantity hacc hb]
      dsimp only
      rw [if_pos rfl]
      exact ⟨rfl, _, _, rfl⟩

set_option maxRecDepth 8000 in
/-- C5: with a truthy `trail_drawdown`, a passed/FROZEN account keeps peak
`P = peak_balance ∨ start_balance` and floor `P − td` regardless of the
current balance (so later balance increases never move the floor), a live
account advances the peak to `max(P, current_balance)` with floor
`max(start_balance − td, newPeak − td)`, and whenever
`current_balance ≤ floor` the account-loop step blows the account with
reason `TRAILING_DRAWDOWN` and liquidates its open positions. -/
theorem trailing_drawdown_spec (env : Env) (tickPrice : Rat) (st : EngineState)
    (accId : String) (acc : Account)
    (hacc : findAccount st.accounts accId = some acc)
    (hstatus : ¬(acc.status = "blown"))
    (hml : ¬(truthy acc.max_loss ∧
      acc.current_balance ≤ acc.start_balance - acc.max_loss.getD 0))
    (hdl : ¬((truthy acc.daily_loss_limit ∧ acc.daily_loss_limit.getD 0 > 0) ∧
      env.dayPnl acc.id ≤ -(acc.daily_loss_limit.getD 0)))
    (htd : truthy acc.trail_drawdown) :
    ((acc.status = "passed" ∨ acc.trailing_dd_mode = some "FROZEN") →
      ∀ b : Rat, trailingCheck { acc with current_balance := b }
          (acc.trail_drawdown.getD 0) =
        (jsOr acc.peak_balance acc.start_balance,
          jsOr acc.peak_balance acc.start_balance - acc.trail_drawdown.getD 0)) ∧
    (¬(acc.status = "passed" ∨ acc.trailing_dd_mode = some "FROZEN") →
      trailingCheck acc (acc.trail_drawdown.getD 0) =
        (max (jsOr acc.peak_balance acc.start_balance) acc.current_balance,
          max (acc.start_balance - acc.trail_drawdown.getD 0)
            (max (jsOr acc.peak_balance acc.start_balance) acc.current_balance -
              acc.trail_drawdown.getD 0))) ∧
    (acc.current_balance ≤ (trailingCheck acc (acc.trail_drawdown.getD 0)).2 →
      ((findAccount (evalAccountStep env tickPrice st accId).1.accounts accId).map
          Account.status = some "blown") ∧
      ((findAccount (evalAccountStep env tickPrice st accId).1.accounts accId).map
          Account.blown_reason = some (some "TRAILING_DRAWDOWN")) ∧
      (∀ u ∈ (evalAccountStep env tickPrice st accId).1.openTrades,
        u.account_id ≠ accId)) := by
  have hid := findAccount_id hacc
  subst hid
  refine ⟨?_, ?_, ?_⟩
  · intro hfz b
    unfold trailingCheck
    dsimp only
    rw [if_pos hfz]
  · intro hnfz
    unfold trailingCheck
    rw [if_neg hnfz]
    simp only [jsMax_eq_max]
  · intro hle
    unfold evalAccountStep
    rw [hacc]
    dsimp only
    rw [if_neg hstatus, if_neg hml, if_neg hdl, if_pos htd]
    by_cases hpk : ¬(acc.status = "passed" ∨ acc.trailing_dd_mode = some "FROZEN") ∧
      (trailingCheck acc (acc.trail_drawdown.getD 0)).1 ≠
        jsOr acc.peak_balance acc.start_balance
    · rw [if_pos hpk]
      dsimp only
      rw [if_pos hle]
      have h := handleBreach_spec env { acc with
          peak_balance := some (trailingCheck acc (acc.trail_drawdown.getD 0)).1 }
        tickPrice "TRAILING_DRAWDOWN"
        { st with accounts := updAccount st.accounts { acc with
            peak_balance := some (trailingCheck acc (acc.trail_drawdown.getD 0)).1 } }
        (@findAccount_updAccount_self st.accounts acc.id acc
          { acc with
            peak_balance := some (trailingCheck acc (acc.trail_drawdown.getD 0)).1 }
          hacc rfl)
      exact ⟨h.1, h.2.1, h.2.2⟩
    · rw [if_neg hpk]
      rw [if_pos hle]
      have h := handleBreach_spec env acc tickPrice "TRAILING_DRAWDOWN"
        { st with accounts := updAccount st.accounts acc }
        (@findAccount_updAccount_self st.accounts acc.id acc acc hacc rfl)
      exact ⟨h.1, h.2.1, h.2.2⟩

def c5Account : Account :=
  { id := "A5", status := "active", current_balance := 40000, start_balance := 50000,
    peak_balance := some 52000, trail_drawdown := some 2000,
    trailing_dd_mode := some "FROZEN" }

def c5State : EngineState :=
  { latestPrices := [], pendingOrders := [], openTrades := [], accounts := [c5Account],
    sessions := [], nextId := 0 }

/-- Witness for C5: the frozen demo account (peak 52000, trail 2000) has
floor 50000; its balance 40000 breaches it and the account-loop step blows
it with `TRAILING_DRAWDOWN`. -/
theorem trailing_drawdown_spec_witness :
    (findAccount c5State.accounts "A5" = some c5Account) ∧
    (truthy c5Account.trail_drawdown = true) ∧
    (c5Account.current_balance ≤
      (trailingCheck c5Account (c5Account.trail_drawdown.getD 0)).2) ∧
    ((findAccount (evalAccountStep demoEnv 30000 c5State "A5").1.accounts "A5").map
        Account.status = some "blown") ∧
    ((findAccount (evalAccountStep demoEnv 30000 c5State "A5").1.accounts "A5").map
        Account.blown_reason = some (some "TRAILING_DRAWDOWN")) := by
  have hle : c5Account.current_balance ≤
      (trailingCheck c5Account (c5Account.trail_drawdown.getD 0)).2 := by
    norm_num [trailingCheck, jsOr, c5Account]
  have h := (trailing_drawdown_spec demoEnv 30000 c5State "A5" c5Account (by decide)
    (by decide) (fun hc => absurd hc.1 (by decide))
    (fun hc => absurd hc.1.1 (by decide)) (by decide)).2.2 hle
  exact ⟨by decide, by decide, hle, h.1, h.2.1⟩

def c6Trade : Trade :=
  { id := 6, account_id := "A1", symbol := "X", side := "buy", quantity := 1,
    entry_price := 10000, stop_loss := some 9500, time_opened := 900000, pnl := -50 }

def c6Closed : Trade :=
  { c6Trade with
      is_open := false
      status := "closed"
      exit_price := some 9001
      pnl := -1049
      exit_reason := some "SL Hit"
      time_closed := some 1000000 }

def c6State : EngineState :=
  { latestPrices := [], pendingOrders := [], openTrades := [c6Trade], accounts := [],
    sessions := [], nextId := 0 }

/-- C6 counterexample: at tick 9000 the risk engine closes the demo SL-hit
buy (entry 10000) at `applySlippage(10000, 9000, "buy") = 9001`, not at the
tick price — ordinary SL-Hit closes do NOT use the triggering tick price
directly, contrary to the claim. -/
theorem sl_exit_uses_slippage_counterexample :
    (Ev.closeEv c6Closed (some "SL Hit") ∈
      (evaluateOpenPositions demoEnv "X" 9000 c6State).2) ∧
    c6Closed.exit_price = some 9001 ∧ (9001 : Rat) ≠ 9000 := by
  refine ⟨?_, rfl, by norm_num⟩
  norm_num [evaluateOpenPositions, runRiskSltp, runAccountChecks, riskSltpReason,
    closeTrade, applySlippage, findAccount, findSession, tickValueOf, jsLeO, jsGeO,
    demoEnv, demoContracts, c6State, c6Trade, c6Closed, Option.bind, SLTP_GRACE_MS]

set_option maxRecDepth 8000 in
/-- C6 amended: the `applySlippage` exit model — slippage
`entry_price × 0.0001` plus a quarter of a positive liquidity gap, added
to the tick price for buys and subtracted for sells — is applied by the
price-server risk engine to every close it performs, the ordinary
SL-Hit/TP-Hit exits as well as the breach liquidations; only the bundled
`processTick` SLTP scan closes at the plain tick price. -/
theorem exit_price_model_spec (env : Env) (symbol : String) (tickPrice : Rat)
    (st : EngineState) :
    (∀ entry gap : Rat, 0 < gap →
      applySlippage entry tickPrice "buy" gap =
        tickPrice + (entry * (1 / 10000) + gap * (1 / 4)) ∧
      applySlippage entry tickPrice "sell" gap =
        tickPrice - (entry * (1 / 10000) + gap * (1 / 4))) ∧
    (∀ e ∈ (evaluateOpenPositions env symbol tickPrice st).2, ∀ t rr,
      e = Ev.closeEv t rr → ∃ pos ∈ st.openTrades,
        t.exit_price = some (applySlippage pos.entry_price tickPrice pos.side)) ∧
    (∀ (list : List Trade) (st2 : EngineState),
      ∀ e ∈ (runSltpCloses env tickPrice list st2).2, ∀ t rr,
        e = Ev.closeEv t rr → t.exit_price = some tickPrice) := by
  refine ⟨?_, ?_, ?_⟩
  · intro entry gap hgap
    constructor <;> simp [applySlippage, hgap]
  · intro e he t rr hev
    rcases evaluateOpenPositions_ev_shape env symbol tickPrice st e he with
      ⟨t2, rr2, pos, hp, he2, _, hx, _⟩ | ⟨a, ha⟩
    · rw [hev] at he2
      cases he2
      exact ⟨pos, hp, hx⟩
    · rw [hev] at ha
      exact absurd ha (fun h2 => nomatch h2)
  · intro list st2 e he t rr hev
    rcases runSltpCloses_ev_shape env tickPrice list st2 e he with
      ⟨t2, t0, _, he2, _, hx⟩ | ⟨a, ha⟩
    · rw [hev] at he2
      cases he2
      exact hx
    · rw [hev] at ha
      exact absurd ha (fun h2 => nomatch h2)

/-- Witness for C6 amended: the SL-hit close of the demo position exits at
`applySlippage(10000, 9000, "buy") = 9001`, as the amended theorem
guarantees. -/
theorem exit_price_model_spec_witness :
    (Ev.closeEv c6Closed (some "SL Hit") ∈
      (evaluateOpenPositions demoEnv "X" 9000 c6State).2) ∧
    (∃ pos ∈ c6State.openTrades,
      c6Closed.exit_price = some (applySlippage pos.entry_price 9000 pos.side)) := by
  have hmem : Ev.closeEv c6Closed (some "SL Hit") ∈
      (evaluateOpenPositions demoEnv "X" 9000 c6State).2 := by
    norm_num [evaluateOpenPositions, runRiskSltp, runAccountChecks, riskSltpReason,
      closeTrade, applySlippage, findAccount, findSession, tickValueOf, jsLeO, jsGeO,
      demoEnv, demoContracts, c6State, c6Trade, c6Closed, Option.bind, SLTP_GRACE_MS]
  exact ⟨hmem, (exit_price_model_spec demoEnv "X" 9000 c6State).2.1 _ hmem c6Closed
    (some "SL Hit") rfl⟩

def c7Account : Account :=
  { id := "A7", status := "blown", current_balance := 0, start_balance := 50000,
    blown_reason := some "MAX_LOSS" }

def c7Order : Order :=
  { id := 1, account_id := "A7", symbol := "X", side := "buy", quantity := 1,
    otype := "market" }

def c7State : EngineState :=
  { latestPrices := [("X", 30000, 999900)], pendingOrders := [], openTrades := [],
    accounts := [c7Account], sessions := [], nextId := 0 }

/-- Witness for C7: a market order of the blown demo account is rejected
and the state is untouched. -/
theorem blown_account_no_new_trades_witness :
    (findAccount c7State.accounts "A7" = some c7Account) ∧
    c7Account.status = "blown" ∧
    ((placeOrder demoEnv false (some 30000) none c7Order c7State).1 = c7State ∧
      ∃ o rr, (placeOrder demoEnv false (some 30000) none c7Order c7State).2 =
        [Ev.rejectEv o rr]) := by
  refine ⟨by decide, rfl, ?_⟩
  exact (blown_account_no_new_trades demoEnv "X" 30000 c7State "A7" c7Account
    (by decide) rfl false (some 30000) none c7Order rfl).2.2

end PCS
